import Mathlib

/-!
# umock_c: call registries, matcher and reporter

A shallow embedding of `src/c/testtools/umock_c/src/umock_c.c`.

* The six file-scope statics of the source become the fields of `State`. A pointer to a
  heap block is `none` (the NULL pointer) or `some blk`, where `blk` lists the elements of
  the block (its length is the capacity of the block, in elements).
* An access outside a block, or through a NULL pointer, is undefined behaviour in C; the
  operations that index an array return `Option`, and `none` stands for such an access.
* `realloc` may fail: every operation that calls it takes the outcome(s) as an argument.
* The collaborators `umockcall_are_equal` and `umockcall_stringify` are not part of the
  file; they are parameters (`Collaborators`). `umockcall_destroy` is recorded in a log.
* `size_t` values are natural numbers. The two decrements of the source (`i--` and
  `expected_call_count--`) are taken modulo `2 ^ w`, `w` being the width of `size_t`; the
  increments are bounded by a call count, which is bounded by the memory that holds the
  handles, and are plain additions.
-/

namespace UmockC

/-- A call handle (`UMOCKCALL_HANDLE`), a pointer value; `0` is the NULL handle. -/
abbrev UMOCKCALL_HANDLE := Nat

/-- The NULL handle. -/
def NULL_HANDLE : UMOCKCALL_HANDLE := 0

/-- The text of a C string (the characters before the terminating NUL). -/
abbrev CString := List Char

/-- The collaborators used by the file and declared in `umockcall.h`:
`umockcall_are_equal(left, right)` returns an `int`, `umockcall_stringify(call)` returns a
freshly allocated C string or NULL (`none`). -/
structure Collaborators where
  umockcall_are_equal : UMOCKCALL_HANDLE → UMOCKCALL_HANDLE → Int
  umockcall_stringify : UMOCKCALL_HANDLE → Option CString

/-- The file-scope statics of `umock_c.c`, and the log of the calls made to
`umockcall_destroy` (oldest first). -/
structure State where
  expected_call_count : Nat
  expected_calls : Option (List UMOCKCALL_HANDLE)
  actual_call_count : Nat
  actual_calls : Option (List UMOCKCALL_HANDLE)
  expected_calls_string : Option CString
  actual_calls_string : Option CString
  destroyed : List UMOCKCALL_HANDLE
deriving DecidableEq

/-- The statics are zero-initialised: both arrays and both strings are NULL, both counts 0. -/
def initial_state : State :=
  { expected_call_count := 0, expected_calls := none,
    actual_call_count := 0, actual_calls := none,
    expected_calls_string := none, actual_calls_string := none,
    destroyed := [] }

/-- `x--` on a `size_t` of width `w`. -/
def size_dec (w x : Nat) : Nat := (x + 2 ^ w - 1) % 2 ^ w

/-- A successful `realloc(p, n * sizeof(UMOCKCALL_HANDLE))`: the new block has `n`
elements, the first `min n (old capacity)` of them are those of the old block, the others
are indeterminate (shown as NULL handles). `realloc(NULL, _)` is `malloc`. -/
def realloc_handles (p : Option (List UMOCKCALL_HANDLE)) (n : Nat) : List UMOCKCALL_HANDLE :=
  (p.getD []).take n ++ List.replicate (n - (p.getD []).length) NULL_HANDLE

/-- The read `p[i]`; `none` when `p` is NULL or `i` is not an index of the block. -/
def read_handle (p : Option (List UMOCKCALL_HANDLE)) (i : Nat) : Option UMOCKCALL_HANDLE :=
  match p with
  | none => none
  | some blk => blk[i]?

/-- `memmove(&p[dst], &p[src], n * sizeof(UMOCKCALL_HANDLE))`; `none` when `p` is NULL or
either range leaves the block. -/
def memmove_handles (p : Option (List UMOCKCALL_HANDLE)) (dst src n : Nat) :
    Option (List UMOCKCALL_HANDLE) :=
  match p with
  | none => none
  | some blk =>
    if src + n ≤ blk.length ∧ dst + n ≤ blk.length then
      some (blk.take dst ++ (blk.drop src).take n ++ blk.drop (dst + n))
    else none

/-- The loop `for (i = 0; i < count; i++) umockcall_destroy(calls[i]);` of
`umock_c_reset_all_calls`, from index `i` on; the result is the destroy log after the loop.
The first argument bounds the number of iterations (`count` is enough). -/
def destroy_loop (calls : Option (List UMOCKCALL_HANDLE)) (count : Nat) :
    Nat → Nat → List UMOCKCALL_HANDLE → Option (List UMOCKCALL_HANDLE)
  | 0, i, log => if i < count then none else some log
  | fuel + 1, i, log =>
    if i < count then
      match read_handle calls i with
      | none => none
      | some h => destroy_loop calls count fuel (i + 1) (log ++ [h])
    else some log

/-- One half of `umock_c_reset_all_calls`: `if (calls != NULL) { destroy each; free }`. -/
def reset_registry (calls : Option (List UMOCKCALL_HANDLE)) (count : Nat)
    (log : List UMOCKCALL_HANDLE) : Option (List UMOCKCALL_HANDLE) :=
  match calls with
  | none => some log
  | some blk => destroy_loop (some blk) count count 0 log

/-- `umock_c_reset_all_calls`: the result is the returned `int` and the new state. -/
def umock_c_reset_all_calls (s : State) : Option (Int × State) :=
  match reset_registry s.expected_calls s.expected_call_count s.destroyed with
  | none => none
  | some log1 =>
    match reset_registry s.actual_calls s.actual_call_count log1 with
    | none => none
    | some log2 =>
      some (0, { s with expected_calls := none, expected_call_count := 0,
                        actual_calls := none, actual_call_count := 0,
                        destroyed := log2 })

/-- `umock_c_deinit`: reset, then free both strings (`umocktypes_deinit` is external). -/
def umock_c_deinit (s : State) : Option State :=
  match umock_c_reset_all_calls s with
  | none => none
  | some (_, s1) => some { s1 with actual_calls_string := none, expected_calls_string := none }

/-- `umock_c_add_expected_call`; `realloc_ok` says whether the `realloc` succeeds. The
failure result is `__LINE__`, which is 87 in the source. The store
`expected_calls[expected_call_count++] = mock_call` is inside the new block, which has
`expected_call_count + 1` elements. -/
def umock_c_add_expected_call (s : State) (mock_call : UMOCKCALL_HANDLE) (realloc_ok : Bool) :
    Int × State :=
  if realloc_ok then
    (0, { s with
          expected_calls :=
            some ((realloc_handles s.expected_calls (s.expected_call_count + 1)).set
              s.expected_call_count mock_call),
          expected_call_count := s.expected_call_count + 1 })
  else (87, s)

/-- The scan loop of `umock_c_add_actual_call`, from index `i` on. The result is
`(result, i, state)` at the exit of the loop. The first argument bounds the number of
iterations (`expected_call_count` is enough). -/
def add_actual_scan (w : Nat) (C : Collaborators) (mock_call : UMOCKCALL_HANDLE) :
    Nat → Nat → State → Option (UMOCKCALL_HANDLE × Nat × State)
  | 0, i, s => if i < s.expected_call_count then none else some (NULL_HANDLE, i, s)
  | fuel + 1, i, s =>
    if i < s.expected_call_count then
      match read_handle s.expected_calls i with
      | none => none
      | some e =>
        if C.umockcall_are_equal e mock_call ≠ 0 then
          match memmove_handles s.expected_calls i (i + 1) (s.expected_call_count - i - 1) with
          | none => none
          | some blk =>
            some (e, size_dec w i,
              { s with expected_calls := some blk,
                       expected_call_count := size_dec w s.expected_call_count })
        else add_actual_scan w C mock_call fuel (i + 1) s
    else some (NULL_HANDLE, i, s)

/-- `umock_c_add_actual_call`; `realloc_ok` says whether the `realloc` of the actual array
succeeds, should it be called. The result is the returned handle and the new state. -/
def umock_c_add_actual_call (w : Nat) (C : Collaborators) (s : State)
    (mock_call : UMOCKCALL_HANDLE) (realloc_ok : Bool) : Option (UMOCKCALL_HANDLE × State) :=
  match add_actual_scan w C mock_call s.expected_call_count 0 s with
  | none => none
  | some (result, i, s1) =>
    if i = s1.expected_call_count then
      if realloc_ok then
        some (NULL_HANDLE, { s1 with
          actual_calls :=
            some ((realloc_handles s1.actual_calls (s1.actual_call_count + 1)).set
              s1.actual_call_count mock_call),
          actual_call_count := s1.actual_call_count + 1 })
      else some (NULL_HANDLE, s1)
    else some (result, { s1 with destroyed := s1.destroyed ++ [mock_call] })

/-- The loop of `umock_c_get_expected_calls` and of `umock_c_get_actual_calls` (the two are
the same text over the expected and the actual statics), from index `i` on, with
`current_length` and the text of the string built so far. `alloc (i + 1)` is the outcome of
the `realloc` of iteration `i`. The result is `(i, text)` at the exit of the loop. The
`memcpy` writes the new text and its NUL at offset `current_length` of the grown buffer. -/
def stringify_loop (C : Collaborators) (calls : Option (List UMOCKCALL_HANDLE)) (count : Nat)
    (alloc : Nat → Bool) : Nat → Nat → Nat → CString → Option (Nat × CString)
  | 0, i, _, buf => if i < count then none else some (i, buf)
  | fuel + 1, i, current_length, buf =>
    if i < count then
      match read_handle calls i with
      | none => none
      | some h =>
        match C.umockcall_stringify h with
        | none => some (i, buf)
        | some stringified_call =>
          if alloc (i + 1) then
            stringify_loop C calls count alloc fuel (i + 1)
              (current_length + stringified_call.length)
              (buf.take current_length ++ stringified_call)
          else some (i, buf)
    else some (i, buf)

/-- `umock_c_get_expected_calls`; `alloc 0` is the outcome of `realloc(.., 1)`, and
`alloc (i + 1)` that of the growth for the call at index `i`. The result is the returned
string (`none` is NULL) and the new state. -/
def umock_c_get_expected_calls (C : Collaborators) (s : State) (alloc : Nat → Bool) :
    Option (Option CString × State) :=
  if alloc 0 then
    match stringify_loop C s.expected_calls s.expected_call_count alloc
        s.expected_call_count 0 0 [] with
    | none => none
    | some (i, buf) =>
      some (if i < s.expected_call_count then none else some buf,
        { s with expected_calls_string := some buf })
  else some (none, s)

/-- `umock_c_get_actual_calls`, as `umock_c_get_expected_calls` over the actual statics. -/
def umock_c_get_actual_calls (C : Collaborators) (s : State) (alloc : Nat → Bool) :
    Option (Option CString × State) :=
  if alloc 0 then
    match stringify_loop C s.actual_calls s.actual_call_count alloc
        s.actual_call_count 0 0 [] with
    | none => none
    | some (i, buf) =>
      some (if i < s.actual_call_count then none else some buf,
        { s with actual_calls_string := some buf })
  else some (none, s)

/-- `umock_c_get_last_expected_call`. -/
def umock_c_get_last_expected_call (s : State) : Option UMOCKCALL_HANDLE :=
  if s.expected_call_count = 0 then some NULL_HANDLE
  else read_handle s.expected_calls (s.expected_call_count - 1)

/-- The expected registry: the first `expected_call_count` elements of `expected_calls`. -/
def State.expected (s : State) : List UMOCKCALL_HANDLE :=
  (s.expected_calls.getD []).take s.expected_call_count

/-- The actual registry: the first `actual_call_count` elements of `actual_calls`. -/
def State.actual (s : State) : List UMOCKCALL_HANDLE :=
  (s.actual_calls.getD []).take s.actual_call_count

/-- Each count is at most the capacity of its block (and is 0 when the pointer is NULL). -/
def State.Valid (s : State) : Prop :=
  s.expected_call_count ≤ (s.expected_calls.getD []).length ∧
  s.actual_call_count ≤ (s.actual_calls.getD []).length

instance (s : State) : Decidable s.Valid :=
  inferInstanceAs (Decidable
    (s.expected_call_count ≤ (s.expected_calls.getD []).length ∧
     s.actual_call_count ≤ (s.actual_calls.getD []).length))

/-- The operations of the file that change the statics, with the outcomes of their
allocations. -/
inductive Op where
  | add_expected_call (mock_call : UMOCKCALL_HANDLE) (realloc_ok : Bool)
  | add_actual_call (mock_call : UMOCKCALL_HANDLE) (realloc_ok : Bool)
  | reset_all_calls
  | get_expected_calls (alloc : Nat → Bool)
  | get_actual_calls (alloc : Nat → Bool)
  | deinit

/-- The state after one operation (the returned value is dropped). -/
def step (w : Nat) (C : Collaborators) (s : State) : Op → Option State
  | Op.add_expected_call c ok => some (umock_c_add_expected_call s c ok).2
  | Op.add_actual_call c ok => (umock_c_add_actual_call w C s c ok).map Prod.snd
  | Op.reset_all_calls => (umock_c_reset_all_calls s).map Prod.snd
  | Op.get_expected_calls alloc => (umock_c_get_expected_calls C s alloc).map Prod.snd
  | Op.get_actual_calls alloc => (umock_c_get_actual_calls C s alloc).map Prod.snd
  | Op.deinit => umock_c_deinit s

/-- The state after a sequence of operations. -/
def run (w : Nat) (C : Collaborators) : State → List Op → Option State
  | s, [] => some s
  | s, op :: ops =>
    match step w C s op with
    | none => none
    | some s1 => run w C s1 ops

/-- A state that some sequence of operations produces from the initial one. -/
def Reachable (w : Nat) (C : Collaborators) (s : State) : Prop :=
  ∃ ops, run w C initial_state ops = some s

/-- Whether `umockcall_are_equal(e, c)` is taken as true by `if (...)`. -/
def is_equal (C : Collaborators) (e c : UMOCKCALL_HANDLE) : Bool :=
  decide (C.umockcall_are_equal e c ≠ 0)

/-- The index of the first (earliest registered) element of `E` that is equal to `c`. -/
def first_match (C : Collaborators) (E : List UMOCKCALL_HANDLE) (c : UMOCKCALL_HANDLE) :
    Option Nat :=
  E.findIdx? (fun e => is_equal C e c)

/-- The Matcher as the spec words it, on the pair (outstanding expectations, unexpected
calls): an observed call that equals some outstanding expectation consumes the earliest
such one; any other observed call is appended to the unexpected calls. -/
def observe_spec (C : Collaborators) (r : List UMOCKCALL_HANDLE × List UMOCKCALL_HANDLE)
    (c : UMOCKCALL_HANDLE) : List UMOCKCALL_HANDLE × List UMOCKCALL_HANDLE :=
  match first_match C r.1 c with
  | some j => (r.1.eraseIdx j, r.2)
  | none => (r.1, r.2 ++ [c])

/-- The observations `obs` processed in order against the expectations `E`, as the spec
words it. -/
def process_spec (C : Collaborators) (E obs : List UMOCKCALL_HANDLE) :
    List UMOCKCALL_HANDLE × List UMOCKCALL_HANDLE :=
  obs.foldl (observe_spec C) (E, [])

/-- Whether `umock_c_add_actual_call` takes the match path on `mock_call`: the test
`i == expected_call_count` that follows the scan loop is false. -/
def takes_match_path (w : Nat) (C : Collaborators) (s : State)
    (mock_call : UMOCKCALL_HANDLE) : Bool :=
  match add_actual_scan w C mock_call s.expected_call_count 0 s with
  | none => false
  | some (_, i, s1) => decide (i ≠ s1.expected_call_count)

/-- Whether every call of `obs`, passed in order to `umock_c_add_actual_call` from the
state `s`, takes the match path (none falls through to the unexpected path). -/
def all_take_match_path (w : Nat) (C : Collaborators) :
    State → List (UMOCKCALL_HANDLE × Bool) → Bool
  | _, [] => true
  | s, p :: rest =>
    takes_match_path w C s p.1 &&
      match umock_c_add_actual_call w C s p.1 p.2 with
      | none => false
      | some (_, s1) => all_take_match_path w C s1 rest

/-- The operations that register the expectations `E`, every allocation succeeding. -/
def register_ops (E : List UMOCKCALL_HANDLE) : List Op :=
  E.map (fun e => Op.add_expected_call e true)

/-- The operations that observe the calls `obs`, with the outcome that the allocation of
each would have. -/
def observe_ops (obs : List (UMOCKCALL_HANDLE × Bool)) : List Op :=
  obs.map (fun p => Op.add_actual_call p.1 p.2)

/-- The render loop over a list of calls, `i` being the index of the first of them: the
index and text at which the loop of the source stops. -/
def render_from (C : Collaborators) (alloc : Nat → Bool) :
    List UMOCKCALL_HANDLE → Nat → CString → Nat × CString
  | [], i, buf => (i, buf)
  | h :: rest, i, buf =>
    match C.umockcall_stringify h with
    | none => (i, buf)
    | some t => if alloc (i + 1) then render_from C alloc rest (i + 1) (buf ++ t) else (i, buf)

/-- The texts of the calls of the scenario of the spec: handles 1 and 3 are the two
registered `foo(1)`, 2 is `bar("x")`, 4 is the observed `foo(1)` and 5 the observed `baz()`. -/
def scenario_text : UMOCKCALL_HANDLE → Option CString
  | 1 => some "foo(1)".toList
  | 2 => some "bar(\"x\")".toList
  | 3 => some "foo(1)".toList
  | 4 => some "foo(1)".toList
  | 5 => some "baz()".toList
  | _ => none

/-- Collaborators for the scenario: two calls are equal when their texts are. -/
def scenario_calls : Collaborators :=
  { umockcall_are_equal := fun a b => if scenario_text a = scenario_text b then 1 else 0,
    umockcall_stringify := scenario_text }

/-- The state of the scenario after the three registrations. -/
def scenario_state : State :=
  { expected_call_count := 3, expected_calls := some [1, 2, 3],
    actual_call_count := 0, actual_calls := none,
    expected_calls_string := none, actual_calls_string := none,
    destroyed := [] }

/-- Collaborators whose equality capability fails on every comparison:
`umockcall_are_equal` returns -1. -/
def failing_calls : Collaborators :=
  { umockcall_are_equal := fun _ _ => -1,
    umockcall_stringify := fun _ => none }

/-- The state after the registration of the single expectation 1. -/
def single_state : State :=
  { expected_call_count := 1, expected_calls := some [1],
    actual_call_count := 0, actual_calls := none,
    expected_calls_string := none, actual_calls_string := none,
    destroyed := [] }

/-- A state with the expected registry of `scenario_state` in a larger block, with other
cached strings and with `baz()` in the actual registry. -/
def scenario_state_other : State :=
  { expected_call_count := 3, expected_calls := some [1, 2, 3, 3],
    actual_call_count := 1, actual_calls := some [5],
    expected_calls_string := some "stale".toList, actual_calls_string := some [],
    destroyed := [4] }

/-- The handle that an operation receives from its caller, if it receives one. -/
def Op.call : Op → Option UMOCKCALL_HANDLE
  | Op.add_expected_call c _ => some c
  | Op.add_actual_call c _ => some c
  | _ => none

/-- What became of the calls that the operations of a run received. The source keeps no
such record; it is kept beside the run to state who destroys which call.
`registered`: the expectations stored by a successful `umock_c_add_expected_call`;
`returned`: the expectations that a match removed and returned to the caller;
`matched`: the observed calls that took the match path;
`appended`: the observed calls stored in the actual array. -/
structure Ledger where
  registered : List UMOCKCALL_HANDLE
  returned : List UMOCKCALL_HANDLE
  matched : List UMOCKCALL_HANDLE
  appended : List UMOCKCALL_HANDLE
deriving DecidableEq

/-- The ledger before any operation. -/
def Ledger.initial : Ledger :=
  { registered := [], returned := [], matched := [], appended := [] }

/-- The ledger after one operation made in the state `s`. -/
def ledger_step (w : Nat) (C : Collaborators) (s : State) (l : Ledger) : Op → Ledger
  | Op.add_expected_call c ok =>
    if ok then { l with registered := l.registered ++ [c] } else l
  | Op.add_actual_call c ok =>
    if takes_match_path w C s c then
      match umock_c_add_actual_call w C s c ok with
      | none => l
      | some (r, _) => { l with returned := l.returned ++ [r], matched := l.matched ++ [c] }
    else if ok then { l with appended := l.appended ++ [c] } else l
  | _ => l

/-- The ledger after a sequence of operations. -/
def run_ledger (w : Nat) (C : Collaborators) : State → Ledger → List Op → Ledger
  | _, l, [] => l
  | s, l, op :: ops =>
    match step w C s op with
    | none => l
    | some s1 => run_ledger w C s1 (ledger_step w C s l op) ops

/-- The state of the scenario after its two observations. -/
def scenario_final_state : State :=
  { expected_call_count := 2, expected_calls := some [2, 3, 3],
    actual_call_count := 1, actual_calls := some [5],
    expected_calls_string := none, actual_calls_string := none,
    destroyed := [4] }

/-- The ledger of the scenario after its two observations. -/
def scenario_ledger : Ledger :=
  { registered := [1, 2, 3], returned := [1], matched := [4], appended := [5] }

/-! ## Blocks and views -/

theorem read_handle_view (p : Option (List UMOCKCALL_HANDLE)) (count k : Nat)
    (hk : k < count) : read_handle p k = ((p.getD []).take count)[k]? := by
  cases p with
  | none => simp [read_handle]
  | some blk => simp [read_handle, List.getElem?_take, hk]

theorem length_view (p : Option (List UMOCKCALL_HANDLE)) (count : Nat)
    (h : count ≤ (p.getD []).length) : ((p.getD []).take count).length = count := by
  simp [List.length_take, h]

theorem length_realloc_handles (p : Option (List UMOCKCALL_HANDLE)) (n : Nat) :
    (realloc_handles p n).length = n := by
  simp only [realloc_handles, List.length_append, List.length_take, List.length_replicate]
  omega

theorem view_realloc_set (p : Option (List UMOCKCALL_HANDLE)) (count : Nat)
    (c : UMOCKCALL_HANDLE) (h : count ≤ (p.getD []).length) :
    ((realloc_handles p (count + 1)).set count c).take (count + 1) =
      (p.getD []).take count ++ [c] := by
  have hlen : ((realloc_handles p (count + 1)).set count c).length = count + 1 := by
    rw [List.length_set, length_realloc_handles]
  rw [List.take_of_length_le (by omega)]
  apply List.ext_getElem?
  intro k
  rw [List.getElem?_set]
  have hl : ((p.getD []).take count).length = count := length_view p count h
  by_cases hk : count = k
  · subst hk
    rw [if_pos rfl, length_realloc_handles, if_pos (by omega),
      List.getElem?_append_right (by omega), hl]
    simp
  · rw [if_neg hk]
    by_cases hk2 : k < count
    · rw [List.getElem?_append_left (by omega)]
      unfold realloc_handles
      rw [List.getElem?_append_left (by rw [List.length_take]; omega)]
      rw [List.getElem?_take, List.getElem?_take, if_pos (by omega), if_pos hk2]
    · rw [List.getElem?_eq_none (by rw [length_realloc_handles]; omega)]
      rw [List.getElem?_eq_none (by rw [List.length_append, hl]; simp; omega)]

theorem size_dec_pos (w x : Nat) (h0 : 0 < x) (hx : x ≤ 2 ^ w) : size_dec w x = x - 1 := by
  unfold size_dec
  have hp : 0 < 2 ^ w := Nat.two_pow_pos w
  have h : x + 2 ^ w - 1 = (x - 1) + 2 ^ w := by omega
  rw [h, Nat.add_mod_right, Nat.mod_eq_of_lt (by omega)]

theorem size_dec_zero (w : Nat) : size_dec w 0 = 2 ^ w - 1 := by
  unfold size_dec
  have h : 0 < 2 ^ w := Nat.two_pow_pos w
  rw [Nat.zero_add, Nat.mod_eq_of_lt (by omega)]

/-- After a match at index `j`, the test `i == expected_call_count` is false. -/
theorem size_dec_index_ne_count (w j count : Nat) (hj : j < count) (hc : count < 2 ^ w) :
    size_dec w j ≠ size_dec w count := by
  have hp : 0 < 2 ^ w := Nat.two_pow_pos w
  rw [size_dec_pos w count (by omega) (by omega)]
  rcases Nat.eq_zero_or_pos j with h0 | h0
  · subst h0
    rw [size_dec_zero]
    omega
  · rw [size_dec_pos w j h0 (by omega)]
    omega

theorem memmove_handles_view (p : Option (List UMOCKCALL_HANDLE)) (count j : Nat)
    (h : count ≤ (p.getD []).length) (hj : j < count) :
    ∃ blk, memmove_handles p j (j + 1) (count - j - 1) = some blk ∧
      blk.length = (p.getD []).length ∧
      blk.take (count - 1) = ((p.getD []).take count).eraseIdx j := by
  cases p with
  | none => simp at h; omega
  | some old =>
    simp only [Option.getD_some] at h
    have h1 : j + 1 + (count - j - 1) ≤ old.length ∧ j + (count - j - 1) ≤ old.length := by
      omega
    refine ⟨_, by simp only [memmove_handles]; rw [if_pos h1], ?_, ?_⟩
    · simp only [List.length_append, List.length_take, List.length_drop, Option.getD_some]
      omega
    · have hA : (old.take j ++ (old.drop (j + 1)).take (count - j - 1)).length = count - 1 := by
        simp only [List.length_append, List.length_take, List.length_drop]
        omega
      rw [List.take_append_of_le_length (by omega), List.take_of_length_le (by omega)]
      simp only [Option.getD_some]
      rw [List.eraseIdx_eq_take_drop_succ, List.take_take, List.drop_take]
      have h2 : min j count = j := by omega
      have h3 : count - (j + 1) = count - j - 1 := by omega
      rw [h2, h3]

/-! ## The scan loop of `umock_c_add_actual_call` -/

theorem add_actual_scan_no_match (w : Nat) (C : Collaborators) (c : UMOCKCALL_HANDLE)
    (s : State) (hv : s.expected_call_count ≤ (s.expected_calls.getD []).length)
    (fuel i : Nat) (hf : s.expected_call_count ≤ i + fuel) (hi : i ≤ s.expected_call_count)
    (hno : ∀ k e, i ≤ k → s.expected[k]? = some e → C.umockcall_are_equal e c = 0) :
    add_actual_scan w C c fuel i s = some (NULL_HANDLE, s.expected_call_count, s) := by
  induction fuel generalizing i with
  | zero =>
    have h : i = s.expected_call_count := by omega
    simp [add_actual_scan, h]
  | succ fuel ih =>
    unfold add_actual_scan
    by_cases hlt : i < s.expected_call_count
    · rw [if_pos hlt, read_handle_view _ _ _ hlt]
      have hlen := length_view _ _ hv
      have hsome : ((s.expected_calls.getD []).take s.expected_call_count)[i]? =
          some (((s.expected_calls.getD []).take s.expected_call_count)[i]) :=
        List.getElem?_eq_getElem (by omega)
      rw [hsome]
      have h0 := hno i _ (Nat.le_refl i) hsome
      simp only [h0, ne_eq, not_true_eq_false, if_false]
      exact ih (i + 1) (by omega) (by omega) (fun k e hk he => hno k e (by omega) he)
    · have h : i = s.expected_call_count := by omega
      rw [if_neg hlt, h]

theorem add_actual_scan_match (w : Nat) (C : Collaborators) (c : UMOCKCALL_HANDLE)
    (s : State) (blk : List UMOCKCALL_HANDLE) (fuel i j : Nat) (e : UMOCKCALL_HANDLE)
    (hf : j < i + fuel) (hij : i ≤ j) (hjc : j < s.expected_call_count)
    (hj : s.expected[j]? = some e) (heq : C.umockcall_are_equal e c ≠ 0)
    (hno : ∀ k x, i ≤ k → k < j → s.expected[k]? = some x → C.umockcall_are_equal x c = 0)
    (hmove : memmove_handles s.expected_calls j (j + 1) (s.expected_call_count - j - 1) =
      some blk) :
    add_actual_scan w C c fuel i s =
      some (e, size_dec w j,
        { s with expected_calls := some blk,
                 expected_call_count := size_dec w s.expected_call_count }) := by
  induction fuel generalizing i with
  | zero => omega
  | succ fuel ih =>
    unfold add_actual_scan
    have hlt : i < s.expected_call_count := by omega
    rw [if_pos hlt, read_handle_view _ _ _ hlt]
    by_cases hieq : i = j
    · subst hieq
      have hj2 : ((s.expected_calls.getD []).take s.expected_call_count)[i]? = some e := hj
      rw [hj2]
      simp only [heq, ne_eq, not_false_eq_true, if_true, hmove]
    · have hij2 : i < j := by omega
      have hlen : i < ((s.expected_calls.getD []).take s.expected_call_count).length := by
        have h1 : j < ((s.expected_calls.getD []).take s.expected_call_count).length := by
          rcases List.getElem?_eq_some_iff.mp hj with ⟨h, _⟩
          exact h
        omega
      have hsome : ((s.expected_calls.getD []).take s.expected_call_count)[i]? =
          some (((s.expected_calls.getD []).take s.expected_call_count)[i]) :=
        List.getElem?_eq_getElem hlen
      rw [hsome]
      have h0 := hno i _ (Nat.le_refl i) hij2 hsome
      simp only [h0, ne_eq, not_true_eq_false, if_false]
      exact ih (i + 1) (by omega) (by omega) (fun k x hk hkj he => hno k x (by omega) hkj he)

/-! ## `umock_c_add_actual_call` -/

theorem add_actual_call_match (w : Nat) (C : Collaborators) (s : State)
    (c : UMOCKCALL_HANDLE) (j : Nat) (e : UMOCKCALL_HANDLE)
    (hv : s.expected_call_count ≤ (s.expected_calls.getD []).length)
    (hw : s.expected_call_count < 2 ^ w)
    (hj : s.expected[j]? = some e) (heq : C.umockcall_are_equal e c ≠ 0)
    (hno : ∀ k x, k < j → s.expected[k]? = some x → C.umockcall_are_equal x c = 0) :
    ∃ blk, blk.length = (s.expected_calls.getD []).length ∧
      blk.take (s.expected_call_count - 1) = s.expected.eraseIdx j ∧
      ∀ ok, umock_c_add_actual_call w C s c ok =
        some (e, { s with expected_calls := some blk,
                          expected_call_count := s.expected_call_count - 1,
                          destroyed := s.destroyed ++ [c] }) := by
  have hjc : j < s.expected_call_count := by
    rcases List.getElem?_eq_some_iff.mp hj with ⟨h, _⟩
    have hl := length_view _ _ hv
    unfold State.expected at h
    omega
  obtain ⟨blk, hmove, hlen, htake⟩ := memmove_handles_view s.expected_calls _ j hv hjc
  refine ⟨blk, hlen, htake, ?_⟩
  intro ok
  have hscan := add_actual_scan_match w C c s blk s.expected_call_count 0 j e (by omega)
    (Nat.zero_le j) hjc hj heq (fun k x _ hkj hx => hno k x hkj hx) hmove
  unfold umock_c_add_actual_call
  rw [hscan]
  simp only []
  rw [if_neg (size_dec_index_ne_count w j _ hjc hw),
    size_dec_pos w _ (by omega) (by omega)]

theorem add_actual_call_no_match (w : Nat) (C : Collaborators) (s : State)
    (c : UMOCKCALL_HANDLE) (ok : Bool)
    (hv : s.expected_call_count ≤ (s.expected_calls.getD []).length)
    (hno : ∀ (k : Nat) (e : UMOCKCALL_HANDLE),
      s.expected[k]? = some e → C.umockcall_are_equal e c = 0) :
    umock_c_add_actual_call w C s c ok =
      some (NULL_HANDLE,
        if ok then
          { s with
            actual_calls :=
              some ((realloc_handles s.actual_calls (s.actual_call_count + 1)).set
                s.actual_call_count c),
            actual_call_count := s.actual_call_count + 1 }
        else s) := by
  have hscan := add_actual_scan_no_match w C c s hv s.expected_call_count 0 (by omega)
    (Nat.zero_le _) (fun k e _ he => hno k e he)
  unfold umock_c_add_actual_call
  rw [hscan]
  cases ok <;> simp

theorem first_match_eq_some_iff (C : Collaborators) (E : List UMOCKCALL_HANDLE)
    (c : UMOCKCALL_HANDLE) (j : Nat) :
    first_match C E c = some j ↔
      ∃ e, E[j]? = some e ∧ C.umockcall_are_equal e c ≠ 0 ∧
        ∀ k x, k < j → E[k]? = some x → C.umockcall_are_equal x c = 0 := by
  unfold first_match
  rw [List.findIdx?_eq_some_iff_getElem]
  constructor
  · rintro ⟨hlt, hp, hbefore⟩
    refine ⟨E[j], List.getElem?_eq_getElem hlt, by simpa [is_equal] using hp, ?_⟩
    intro k x hk hx
    rcases List.getElem?_eq_some_iff.mp hx with ⟨hkl, rfl⟩
    simpa [is_equal] using hbefore k hk
  · rintro ⟨e, he, heq, hbefore⟩
    rcases List.getElem?_eq_some_iff.mp he with ⟨hlt, rfl⟩
    refine ⟨hlt, by simpa [is_equal] using heq, ?_⟩
    intro k hk
    have := hbefore k E[k] hk (List.getElem?_eq_getElem (by omega))
    simpa [is_equal] using this

theorem first_match_eq_none_iff (C : Collaborators) (E : List UMOCKCALL_HANDLE)
    (c : UMOCKCALL_HANDLE) :
    first_match C E c = none ↔ ∀ e ∈ E, C.umockcall_are_equal e c = 0 := by
  unfold first_match
  rw [List.findIdx?_eq_none_iff]
  simp [is_equal]

theorem first_match_of_exists (C : Collaborators) (E : List UMOCKCALL_HANDLE)
    (c : UMOCKCALL_HANDLE) (h : ∃ e ∈ E, C.umockcall_are_equal e c ≠ 0) :
    ∃ j, first_match C E c = some j := by
  cases hm : first_match C E c with
  | some j => exact ⟨j, rfl⟩
  | none =>
    rcases h with ⟨e, he, hne⟩
    exact absurd ((first_match_eq_none_iff C E c).mp hm e he) hne

theorem add_actual_call_match_state (w : Nat) (C : Collaborators) (s : State)
    (c : UMOCKCALL_HANDLE) (j : Nat) (e : UMOCKCALL_HANDLE) (hv : s.Valid)
    (hw : s.expected_call_count < 2 ^ w)
    (hj : s.expected[j]? = some e) (heq : C.umockcall_are_equal e c ≠ 0)
    (hno : ∀ k x, k < j → s.expected[k]? = some x → C.umockcall_are_equal x c = 0) :
    ∃ s1, (∀ ok, umock_c_add_actual_call w C s c ok = some (e, s1)) ∧
      s1.expected = s.expected.eraseIdx j ∧
      s1.expected_call_count = s.expected_call_count - 1 ∧
      s1.actual_calls = s.actual_calls ∧
      s1.actual_call_count = s.actual_call_count ∧
      s1.destroyed = s.destroyed ++ [c] ∧
      s1.expected_calls_string = s.expected_calls_string ∧
      s1.actual_calls_string = s.actual_calls_string ∧
      s1.Valid := by
  obtain ⟨blk, hlen, htake, hcall⟩ := add_actual_call_match w C s c j e hv.1 hw hj heq hno
  refine ⟨_, hcall, by simpa [State.expected] using htake, rfl, rfl, rfl, rfl, rfl, rfl, ?_, ?_⟩
  · show s.expected_call_count - 1 ≤ ((some blk).getD []).length
    have := hv.1
    simp only [Option.getD_some, hlen]
    omega
  · exact hv.2

theorem actual_eq_of_fields (s t : State) (h1 : t.actual_calls = s.actual_calls)
    (h2 : t.actual_call_count = s.actual_call_count) : t.actual = s.actual := by
  simp [State.actual, h1, h2]

theorem expected_eq_of_fields (s t : State) (h1 : t.expected_calls = s.expected_calls)
    (h2 : t.expected_call_count = s.expected_call_count) : t.expected = s.expected := by
  simp [State.expected, h1, h2]

theorem expected_length (s : State) (hv : s.Valid) :
    s.expected.length = s.expected_call_count :=
  length_view _ _ hv.1

theorem actual_length (s : State) (hv : s.Valid) :
    s.actual.length = s.actual_call_count :=
  length_view _ _ hv.2

/-! ## `umock_c_add_expected_call` -/

theorem add_expected_call_expected (s : State) (c : UMOCKCALL_HANDLE)
    (hv : s.expected_call_count ≤ (s.expected_calls.getD []).length) :
    (umock_c_add_expected_call s c true).2.expected = s.expected ++ [c] := by
  simp only [umock_c_add_expected_call, if_true, State.expected, Option.getD_some]
  exact view_realloc_set s.expected_calls s.expected_call_count c hv

theorem add_expected_call_valid (s : State) (c : UMOCKCALL_HANDLE) (ok : Bool)
    (hv : s.Valid) : (umock_c_add_expected_call s c ok).2.Valid := by
  cases ok with
  | false => exact hv
  | true =>
    refine ⟨?_, hv.2⟩
    simp only [umock_c_add_expected_call, if_true, Option.getD_some, List.length_set,
      length_realloc_handles]
    exact Nat.le_refl _

/-! ## Claims on single operations -/

/-- C1: when some element of the expected registry equals the observed call `c`
(`umockcall_are_equal` is non-zero), `umock_c_add_actual_call` returns the first such
element `e` (index `j`), the expected registry becomes the old one with exactly the element
at `j` removed, the actual registry stays as it is, `c` is destroyed, and the outcome is the
same whether an allocation would succeed or not. -/
theorem add_actual_call_first_match (w : Nat) (C : Collaborators) (s : State)
    (c : UMOCKCALL_HANDLE) (hv : s.Valid) (hw : s.expected_call_count < 2 ^ w)
    (h : ∃ e ∈ s.expected, C.umockcall_are_equal e c ≠ 0) :
    ∃ j e s1,
      s.expected[j]? = some e ∧ C.umockcall_are_equal e c ≠ 0 ∧
      (∀ k x, k < j → s.expected[k]? = some x → C.umockcall_are_equal x c = 0) ∧
      (∀ ok, umock_c_add_actual_call w C s c ok = some (e, s1)) ∧
      s1.expected = s.expected.eraseIdx j ∧
      s1.expected_call_count = s.expected_call_count - 1 ∧
      s1.actual = s.actual ∧
      s1.actual_call_count = s.actual_call_count ∧
      s1.destroyed = s.destroyed ++ [c] := by
  obtain ⟨j, hjm⟩ := first_match_of_exists C s.expected c h
  obtain ⟨e, hj, heq, hno⟩ := (first_match_eq_some_iff C s.expected c j).mp hjm
  obtain ⟨s1, hcall, hE, hcount, hA, hAc, hD, _, _, _⟩ :=
    add_actual_call_match_state w C s c j e hv hw hj heq hno
  exact ⟨j, e, s1, hj, heq, hno, hcall, hE, hcount, actual_eq_of_fields s s1 hA hAc, hAc, hD⟩

/-- Witness of C1: the first observation of the scenario of the spec. -/
theorem add_actual_call_first_match_witness :
    scenario_state.Valid ∧ scenario_state.expected_call_count < 2 ^ 64 ∧
    (∃ e ∈ scenario_state.expected, scenario_calls.umockcall_are_equal e 4 ≠ 0) ∧
    ∃ j e s1,
      scenario_state.expected[j]? = some e ∧ scenario_calls.umockcall_are_equal e 4 ≠ 0 ∧
      (∀ k x, k < j → scenario_state.expected[k]? = some x →
        scenario_calls.umockcall_are_equal x 4 = 0) ∧
      (∀ ok, umock_c_add_actual_call 64 scenario_calls scenario_state 4 ok = some (e, s1)) ∧
      s1.expected = scenario_state.expected.eraseIdx j ∧
      s1.expected_call_count = scenario_state.expected_call_count - 1 ∧
      s1.actual = scenario_state.actual ∧
      s1.actual_call_count = scenario_state.actual_call_count ∧
      s1.destroyed = scenario_state.destroyed ++ [4] :=
  ⟨by decide, by decide, ⟨1, by decide, by decide⟩,
    add_actual_call_first_match 64 scenario_calls scenario_state 4 (by decide) (by decide)
      ⟨1, by decide, by decide⟩⟩

/-- C2: when no element of the expected registry equals the observed call `c` and the
growth of the actual array succeeds, `umock_c_add_actual_call` returns NULL, leaves the
expected array and count as they are, makes the actual registry the old one followed by
`c`, and does not destroy `c`. -/
theorem add_actual_call_unexpected (w : Nat) (C : Collaborators) (s : State)
    (c : UMOCKCALL_HANDLE) (hv : s.Valid)
    (hno : ∀ e ∈ s.expected, C.umockcall_are_equal e c = 0) :
    ∃ s1, umock_c_add_actual_call w C s c true = some (NULL_HANDLE, s1) ∧
      s1.expected_calls = s.expected_calls ∧
      s1.expected_call_count = s.expected_call_count ∧
      s1.expected = s.expected ∧
      s1.actual = s.actual ++ [c] ∧
      s1.actual_call_count = s.actual_call_count + 1 ∧
      s1.destroyed = s.destroyed := by
  have hcall := add_actual_call_no_match w C s c true hv.1
    (fun k e he => hno e (List.getElem?_mem he))
  refine ⟨_, hcall, rfl, rfl, rfl, ?_, rfl, rfl⟩
  simp only [if_true, State.actual, Option.getD_some]
  exact view_realloc_set s.actual_calls s.actual_call_count c hv.2

/-- Witness of C2: the second observation of the scenario of the spec, `baz()`. -/
theorem add_actual_call_unexpected_witness :
    scenario_state.Valid ∧
    (∀ e ∈ scenario_state.expected, scenario_calls.umockcall_are_equal e 5 = 0) ∧
    ∃ s1, umock_c_add_actual_call 64 scenario_calls scenario_state 5 true =
        some (NULL_HANDLE, s1) ∧
      s1.expected_calls = scenario_state.expected_calls ∧
      s1.expected_call_count = scenario_state.expected_call_count ∧
      s1.expected = scenario_state.expected ∧
      s1.actual = scenario_state.actual ++ [5] ∧
      s1.actual_call_count = scenario_state.actual_call_count + 1 ∧
      s1.destroyed = scenario_state.destroyed :=
  ⟨by decide, by decide,
    add_actual_call_unexpected 64 scenario_calls scenario_state 5 (by decide) (by decide)⟩

/-- C7: when the growth of the expected array fails, `umock_c_add_expected_call` returns a
non-zero result (the success value is 0) and the state is exactly the one before: expected
array and count, actual array and count, and destroy log (the call is neither stored nor
destroyed). -/
theorem add_expected_call_failure (s : State) (c : UMOCKCALL_HANDLE) :
    (umock_c_add_expected_call s c false).1 ≠ 0 ∧
    (umock_c_add_expected_call s c false).1 ≠ (umock_c_add_expected_call s c true).1 ∧
    (umock_c_add_expected_call s c false).2 = s ∧
    (umock_c_add_expected_call s c false).2.expected_call_count = s.expected_call_count ∧
    (umock_c_add_expected_call s c false).2.expected_calls = s.expected_calls ∧
    (umock_c_add_expected_call s c false).2.expected = s.expected ∧
    (umock_c_add_expected_call s c false).2.actual = s.actual ∧
    (umock_c_add_expected_call s c false).2.destroyed = s.destroyed := by
  refine ⟨?_, ?_, rfl, rfl, rfl, rfl, rfl, rfl⟩ <;> simp [umock_c_add_expected_call]

/-- C8: when the growth succeeds, `umock_c_add_expected_call` returns 0, the expected
registry becomes the old one followed by `c`, the count grows by exactly one, every prior
entry is read back at its index, and the actual registry stays as it is. -/
theorem add_expected_call_success (s : State) (c : UMOCKCALL_HANDLE) (hv : s.Valid) :
    (umock_c_add_expected_call s c true).1 = 0 ∧
    (umock_c_add_expected_call s c true).2.expected = s.expected ++ [c] ∧
    (umock_c_add_expected_call s c true).2.expected_call_count = s.expected_call_count + 1 ∧
    (∀ k, k < s.expected_call_count →
      read_handle (umock_c_add_expected_call s c true).2.expected_calls k =
        read_handle s.expected_calls k) ∧
    (umock_c_add_expected_call s c true).2.actual = s.actual ∧
    (umock_c_add_expected_call s c true).2.actual_call_count = s.actual_call_count ∧
    (umock_c_add_expected_call s c true).2.destroyed = s.destroyed := by
  refine ⟨rfl, add_expected_call_expected s c hv.1, rfl, ?_, rfl, rfl, rfl⟩
  intro k hk
  have hnew := add_expected_call_expected s c hv.1
  have hcount : (umock_c_add_expected_call s c true).2.expected_call_count =
      s.expected_call_count + 1 := rfl
  rw [read_handle_view _ (umock_c_add_expected_call s c true).2.expected_call_count k
      (by rw [hcount]; omega),
    read_handle_view _ s.expected_call_count k hk]
  have hl := length_view _ _ hv.1
  change (umock_c_add_expected_call s c true).2.expected[k]? = s.expected[k]?
  rw [hnew, List.getElem?_append_left (by unfold State.expected; omega)]

/-- Witness of C8: a fourth registration in the scenario of the spec. -/
theorem add_expected_call_success_witness :
    scenario_state.Valid ∧
    (umock_c_add_expected_call scenario_state 4 true).1 = 0 ∧
    (umock_c_add_expected_call scenario_state 4 true).2.expected =
      scenario_state.expected ++ [4] ∧
    (umock_c_add_expected_call scenario_state 4 true).2.expected_call_count =
      scenario_state.expected_call_count + 1 ∧
    (∀ k, k < scenario_state.expected_call_count →
      read_handle (umock_c_add_expected_call scenario_state 4 true).2.expected_calls k =
        read_handle scenario_state.expected_calls k) ∧
    (umock_c_add_expected_call scenario_state 4 true).2.actual = scenario_state.actual ∧
    (umock_c_add_expected_call scenario_state 4 true).2.actual_call_count =
      scenario_state.actual_call_count ∧
    (umock_c_add_expected_call scenario_state 4 true).2.destroyed =
      scenario_state.destroyed :=
  ⟨by decide, add_expected_call_success scenario_state 4 (by decide)⟩

/-- C4: FIFO tie-break. From a state with no outstanding expectation, register `e1` then
`e2`; for observed calls `c1`, `c2` each equal to both, the first `umock_c_add_actual_call`
returns `e1` and leaves the expected registry `[e2]`, the second returns `e2` and leaves it
empty; the actual registry is the same after each, whatever the allocation outcomes. -/
theorem add_actual_call_fifo (w : Nat) (C : Collaborators) (s0 : State)
    (e1 e2 c1 c2 : UMOCKCALL_HANDLE) (hv : s0.Valid) (h0 : s0.expected_call_count = 0)
    (hw : 2 < 2 ^ w)
    (h11 : C.umockcall_are_equal e1 c1 ≠ 0) (_h21 : C.umockcall_are_equal e2 c1 ≠ 0)
    (_h12 : C.umockcall_are_equal e1 c2 ≠ 0) (h22 : C.umockcall_are_equal e2 c2 ≠ 0) :
    ∃ s s1 s2,
      s = (umock_c_add_expected_call (umock_c_add_expected_call s0 e1 true).2 e2 true).2 ∧
      s.expected = [e1, e2] ∧
      (∀ ok, umock_c_add_actual_call w C s c1 ok = some (e1, s1)) ∧
      s1.expected = [e2] ∧ s1.actual = s0.actual ∧
      (∀ ok, umock_c_add_actual_call w C s1 c2 ok = some (e2, s2)) ∧
      s2.expected = [] ∧ s2.expected_call_count = 0 ∧ s2.actual = s0.actual := by
  have hva := add_expected_call_valid s0 e1 true hv
  have hvb := add_expected_call_valid _ e2 true hva
  have hE0 : s0.expected = [] := by simp [State.expected, h0]
  have hE : (umock_c_add_expected_call (umock_c_add_expected_call s0 e1 true).2 e2
      true).2.expected = [e1, e2] := by
    rw [add_expected_call_expected _ e2 hva.1, add_expected_call_expected _ e1 hv.1, hE0]
    rfl
  have hcount : (umock_c_add_expected_call (umock_c_add_expected_call s0 e1 true).2 e2
      true).2.expected_call_count = 2 := by
    show s0.expected_call_count + 1 + 1 = 2
    omega
  obtain ⟨s1, hcall1, hE1, hc1, hA1, hAc1, _, _, _, hv1⟩ :=
    add_actual_call_match_state w C _ c1 0 e1 hvb (by rw [hcount]; exact hw)
      (by rw [hE]; rfl) h11 (fun k x hk _ => absurd hk (by omega))
  rw [hE] at hE1
  rw [hcount] at hc1
  obtain ⟨s2, hcall2, hE2, hc2, hA2, hAc2, _, _, _, _⟩ :=
    add_actual_call_match_state w C s1 c2 0 e2 hv1 (by omega)
      (by rw [hE1]; rfl) h22 (fun k x hk _ => absurd hk (by omega))
  rw [hE1] at hE2
  have hactual1 : s1.actual = s0.actual := actual_eq_of_fields _ s1 hA1 hAc1
  have hactual2 : s2.actual = s0.actual := by
    rw [actual_eq_of_fields s1 s2 hA2 hAc2, hactual1]
  exact ⟨_, s1, s2, rfl, hE, hcall1, hE1, hactual1, hcall2, hE2, by omega, hactual2⟩

/-- Witness of C4: the two `foo(1)` expectations of the scenario (handles 1 and 3) and two
observed `foo(1)` (handle 4 twice). -/
theorem add_actual_call_fifo_witness :
    initial_state.Valid ∧ initial_state.expected_call_count = 0 ∧ 2 < 2 ^ 64 ∧
    scenario_calls.umockcall_are_equal 1 4 ≠ 0 ∧ scenario_calls.umockcall_are_equal 3 4 ≠ 0 ∧
    ∃ s s1 s2,
      s = (umock_c_add_expected_call (umock_c_add_expected_call initial_state 1 true).2 3
        true).2 ∧
      s.expected = [1, 3] ∧
      (∀ ok, umock_c_add_actual_call 64 scenario_calls s 4 ok = some (1, s1)) ∧
      s1.expected = [3] ∧ s1.actual = initial_state.actual ∧
      (∀ ok, umock_c_add_actual_call 64 scenario_calls s1 4 ok = some (3, s2)) ∧
      s2.expected = [] ∧ s2.expected_call_count = 0 ∧ s2.actual = initial_state.actual :=
  ⟨by decide, by decide, by decide, by decide, by decide,
    add_actual_call_fifo 64 scenario_calls initial_state 1 3 4 4 (by decide) (by decide)
      (by decide) (by decide) (by decide) (by decide) (by decide)⟩

/-! ## `umock_c_reset_all_calls` -/

theorem destroy_loop_eq (calls : Option (List UMOCKCALL_HANDLE)) (count : Nat)
    (hv : count ≤ (calls.getD []).length) (fuel i : Nat) (log : List UMOCKCALL_HANDLE)
    (hf : count ≤ i + fuel) (hi : i ≤ count) :
    destroy_loop calls count fuel i log =
      some (log ++ ((calls.getD []).take count).drop i) := by
  have hlen := length_view calls count hv
  induction fuel generalizing i log with
  | zero =>
    have h : i = count := by omega
    subst h
    simp [destroy_loop, List.drop_of_length_le (Nat.le_of_eq hlen)]
  | succ fuel ih =>
    unfold destroy_loop
    by_cases hlt : i < count
    · rw [if_pos hlt, read_handle_view calls count i hlt,
        List.getElem?_eq_getElem (by omega)]
      simp only []
      rw [ih (i + 1) _ (by omega) (by omega)]
      rw [List.drop_eq_getElem_cons (by omega : i < ((calls.getD []).take count).length)]
      simp
    · have h : i = count := by omega
      subst h
      rw [if_neg hlt, List.drop_of_length_le (Nat.le_of_eq hlen), List.append_nil]

theorem reset_registry_eq (calls : Option (List UMOCKCALL_HANDLE)) (count : Nat)
    (hv : count ≤ (calls.getD []).length) (log : List UMOCKCALL_HANDLE) :
    reset_registry calls count log = some (log ++ (calls.getD []).take count) := by
  cases calls with
  | none => simp [reset_registry]
  | some blk =>
    simp only [reset_registry]
    rw [destroy_loop_eq (some blk) count hv count 0 log (by omega) (Nat.zero_le _)]
    simp

theorem reset_all_calls_eq (s : State) (hv : s.Valid) :
    umock_c_reset_all_calls s =
      some (0, { s with expected_calls := none, expected_call_count := 0,
                        actual_calls := none, actual_call_count := 0,
                        destroyed := s.destroyed ++ s.expected ++ s.actual }) := by
  unfold umock_c_reset_all_calls
  rw [reset_registry_eq _ _ hv.1]
  simp only []
  rw [reset_registry_eq _ _ hv.2]
  rfl

/-- Whatever the state, a reset that returns leaves both arrays NULL and both counts 0. -/
theorem reset_all_calls_fields (s s1 : State) (r : Int)
    (h : umock_c_reset_all_calls s = some (r, s1)) :
    s1.expected_calls = none ∧ s1.expected_call_count = 0 ∧
    s1.actual_calls = none ∧ s1.actual_call_count = 0 := by
  unfold umock_c_reset_all_calls at h
  split at h
  · exact absurd h (by simp)
  · split at h
    · exact absurd h (by simp)
    · simp only [Option.some.injEq, Prod.mk.injEq] at h
      rw [← h.2]
      exact ⟨rfl, rfl, rfl, rfl⟩

/-! ## The counts never exceed the blocks -/

theorem size_dec_le (w x : Nat) (h0 : 0 < x) : size_dec w x ≤ x - 1 := by
  unfold size_dec
  have hp : 0 < 2 ^ w := Nat.two_pow_pos w
  have h : x + 2 ^ w - 1 = (x - 1) + 2 ^ w := by omega
  rw [h, Nat.add_mod_right]
  exact Nat.mod_le _ _

theorem valid_append_actual (s : State) (c : UMOCKCALL_HANDLE) (hv : s.Valid) :
    State.Valid { s with
      actual_calls :=
        some ((realloc_handles s.actual_calls (s.actual_call_count + 1)).set
          s.actual_call_count c),
      actual_call_count := s.actual_call_count + 1 } := by
  refine ⟨hv.1, ?_⟩
  simp only [Option.getD_some, List.length_set, length_realloc_handles]
  exact Nat.le_refl _

theorem add_actual_call_valid (w : Nat) (C : Collaborators) (s s1 : State)
    (c r : UMOCKCALL_HANDLE) (ok : Bool) (hv : s.Valid)
    (h : umock_c_add_actual_call w C s c ok = some (r, s1)) : s1.Valid := by
  cases hm : first_match C s.expected c with
  | none =>
    have hno := (first_match_eq_none_iff C s.expected c).mp hm
    rw [add_actual_call_no_match w C s c ok hv.1
      (fun k e he => hno e (List.getElem?_mem he))] at h
    simp only [Option.some.injEq, Prod.mk.injEq] at h
    rw [← h.2]
    cases ok with
    | false => exact hv
    | true => exact valid_append_actual s c hv
  | some j =>
    obtain ⟨e, hj, heq, hno⟩ := (first_match_eq_some_iff C s.expected c j).mp hm
    have hjc : j < s.expected_call_count := by
      rcases List.getElem?_eq_some_iff.mp hj with ⟨hlt, _⟩
      have hl := expected_length s hv
      omega
    obtain ⟨blk, hmove, hlen, _⟩ := memmove_handles_view s.expected_calls _ j hv.1 hjc
    have hscan := add_actual_scan_match w C c s blk s.expected_call_count 0 j e (by omega)
      (Nat.zero_le j) hjc hj heq (fun k x _ hkj hx => hno k x hkj hx) hmove
    have hdec := size_dec_le w s.expected_call_count (by omega)
    have hv1 : State.Valid
        { s with expected_calls := some blk,
                 expected_call_count := size_dec w s.expected_call_count } := by
      refine ⟨?_, hv.2⟩
      have := hv.1
      simp only [Option.getD_some, hlen]
      omega
    unfold umock_c_add_actual_call at h
    rw [hscan] at h
    simp only [] at h
    split at h
    · cases ok with
      | false =>
        simp only [Bool.false_eq_true, if_false, Option.some.injEq, Prod.mk.injEq] at h
        rw [← h.2]
        exact hv1
      | true =>
        simp only [if_true, Option.some.injEq, Prod.mk.injEq] at h
        rw [← h.2]
        exact valid_append_actual _ c hv1
    · simp only [Option.some.injEq, Prod.mk.injEq] at h
      rw [← h.2]
      exact hv1

theorem get_expected_calls_frame (C : Collaborators) (s s1 : State) (alloc : Nat → Bool)
    (r : Option CString) (h : umock_c_get_expected_calls C s alloc = some (r, s1)) :
    s1.expected_calls = s.expected_calls ∧ s1.expected_call_count = s.expected_call_count ∧
    s1.actual_calls = s.actual_calls ∧ s1.actual_call_count = s.actual_call_count ∧
    s1.actual_calls_string = s.actual_calls_string ∧ s1.destroyed = s.destroyed := by
  unfold umock_c_get_expected_calls at h
  split at h
  · split at h
    · exact absurd h (by simp)
    · simp only [Option.some.injEq, Prod.mk.injEq] at h
      rw [← h.2]
      exact ⟨rfl, rfl, rfl, rfl, rfl, rfl⟩
  · simp only [Option.some.injEq, Prod.mk.injEq] at h
    rw [← h.2]
    exact ⟨rfl, rfl, rfl, rfl, rfl, rfl⟩

theorem get_actual_calls_frame (C : Collaborators) (s s1 : State) (alloc : Nat → Bool)
    (r : Option CString) (h : umock_c_get_actual_calls C s alloc = some (r, s1)) :
    s1.expected_calls = s.expected_calls ∧ s1.expected_call_count = s.expected_call_count ∧
    s1.actual_calls = s.actual_calls ∧ s1.actual_call_count = s.actual_call_count ∧
    s1.expected_calls_string = s.expected_calls_string ∧ s1.destroyed = s.destroyed := by
  unfold umock_c_get_actual_calls at h
  split at h
  · split at h
    · exact absurd h (by simp)
    · simp only [Option.some.injEq, Prod.mk.injEq] at h
      rw [← h.2]
      exact ⟨rfl, rfl, rfl, rfl, rfl, rfl⟩
  · simp only [Option.some.injEq, Prod.mk.injEq] at h
    rw [← h.2]
    exact ⟨rfl, rfl, rfl, rfl, rfl, rfl⟩

theorem valid_of_fields (s t : State) (hv : s.Valid)
    (h1 : t.expected_calls = s.expected_calls)
    (h2 : t.expected_call_count = s.expected_call_count)
    (h3 : t.actual_calls = s.actual_calls)
    (h4 : t.actual_call_count = s.actual_call_count) : t.Valid := by
  unfold State.Valid
  rw [h1, h2, h3, h4]
  exact hv

theorem valid_of_reset_fields (t : State) (h1 : t.expected_calls = none)
    (h2 : t.expected_call_count = 0) (h3 : t.actual_calls = none)
    (h4 : t.actual_call_count = 0) : t.Valid := by
  unfold State.Valid
  rw [h1, h2, h3, h4]
  exact ⟨Nat.zero_le _, Nat.zero_le _⟩

theorem step_valid (w : Nat) (C : Collaborators) (s s1 : State) (op : Op) (hv : s.Valid)
    (h : step w C s op = some s1) : s1.Valid := by
  cases op with
  | add_expected_call c ok =>
    simp only [step, Option.some.injEq] at h
    rw [← h]
    exact add_expected_call_valid s c ok hv
  | add_actual_call c ok =>
    simp only [step, Option.map_eq_some', Prod.exists, exists_eq_right] at h
    obtain ⟨r, hr⟩ := h
    exact add_actual_call_valid w C s s1 c r ok hv hr
  | reset_all_calls =>
    simp only [step, Option.map_eq_some', Prod.exists, exists_eq_right] at h
    obtain ⟨r, hr⟩ := h
    obtain ⟨h1, h2, h3, h4⟩ := reset_all_calls_fields s s1 r hr
    exact valid_of_reset_fields s1 h1 h2 h3 h4
  | get_expected_calls alloc =>
    simp only [step, Option.map_eq_some', Prod.exists, exists_eq_right] at h
    obtain ⟨r, hr⟩ := h
    obtain ⟨h1, h2, h3, h4, _, _⟩ := get_expected_calls_frame C s s1 alloc r hr
    exact valid_of_fields s s1 hv h1 h2 h3 h4
  | get_actual_calls alloc =>
    simp only [step, Option.map_eq_some', Prod.exists, exists_eq_right] at h
    obtain ⟨r, hr⟩ := h
    obtain ⟨h1, h2, h3, h4, _, _⟩ := get_actual_calls_frame C s s1 alloc r hr
    exact valid_of_fields s s1 hv h1 h2 h3 h4
  | deinit =>
    simp only [step, umock_c_deinit] at h
    split at h
    · exact absurd h (by simp)
    · rename_i r s2 hr
      simp only [Option.some.injEq] at h
      obtain ⟨h1, h2, h3, h4⟩ := reset_all_calls_fields s s2 r hr
      rw [← h]
      exact valid_of_reset_fields _ h1 h2 h3 h4

theorem run_valid (w : Nat) (C : Collaborators) (ops : List Op) (s s1 : State)
    (hv : s.Valid) (h : run w C s ops = some s1) : s1.Valid := by
  induction ops generalizing s with
  | nil =>
    simp only [run, Option.some.injEq] at h
    rw [← h]
    exact hv
  | cons op ops ih =>
    simp only [run] at h
    split at h
    · exact absurd h (by simp)
    · rename_i s2 hs2
      exact ih s2 (step_valid w C s s2 op hv hs2) h

theorem initial_state_valid : initial_state.Valid := by decide

theorem reachable_valid (w : Nat) (C : Collaborators) (s : State)
    (h : Reachable w C s) : s.Valid := by
  obtain ⟨ops, hops⟩ := h
  exact run_valid w C ops initial_state s initial_state_valid hops

/-- C9: from every reachable state `umock_c_reset_all_calls` returns 0 and leaves both
arrays NULL and both counts 0, as in the initial state, so both registries are empty; a
second reset returns 0 again and changes nothing. -/
theorem reset_all_calls_idempotent (w : Nat) (C : Collaborators) (s : State)
    (h : Reachable w C s) :
    ∃ s1, umock_c_reset_all_calls s = some (0, s1) ∧
      s1.expected_calls = initial_state.expected_calls ∧
      s1.expected_call_count = initial_state.expected_call_count ∧
      s1.actual_calls = initial_state.actual_calls ∧
      s1.actual_call_count = initial_state.actual_call_count ∧
      s1.expected = [] ∧ s1.expected_call_count = 0 ∧
      s1.actual = [] ∧ s1.actual_call_count = 0 ∧
      umock_c_reset_all_calls s1 = some (0, s1) := by
  have hv := reachable_valid w C s h
  refine ⟨_, reset_all_calls_eq s hv, rfl, rfl, rfl, rfl, rfl, rfl, rfl, rfl, ?_⟩
  rw [reset_all_calls_eq _ (valid_of_reset_fields _ rfl rfl rfl rfl)]
  simp [State.expected, State.actual]

/-- Witness of C9: the state of the scenario after its three registrations. -/
theorem reset_all_calls_idempotent_witness :
    Reachable 64 scenario_calls scenario_state ∧
    ∃ s1, umock_c_reset_all_calls scenario_state = some (0, s1) ∧
      s1.expected_calls = initial_state.expected_calls ∧
      s1.expected_call_count = initial_state.expected_call_count ∧
      s1.actual_calls = initial_state.actual_calls ∧
      s1.actual_call_count = initial_state.actual_call_count ∧
      s1.expected = [] ∧ s1.expected_call_count = 0 ∧
      s1.actual = [] ∧ s1.actual_call_count = 0 ∧
      umock_c_reset_all_calls s1 = some (0, s1) :=
  ⟨⟨register_ops [1, 2, 3], by decide⟩,
    reset_all_calls_idempotent 64 scenario_calls scenario_state
      ⟨register_ops [1, 2, 3], by decide⟩⟩

/-! ## The render loop -/

theorem stringify_loop_eq (C : Collaborators) (calls : Option (List UMOCKCALL_HANDLE))
    (count : Nat) (alloc : Nat → Bool) (hv : count ≤ (calls.getD []).length)
    (fuel i : Nat) (buf : CString) (hf : count ≤ i + fuel) (hi : i ≤ count) :
    stringify_loop C calls count alloc fuel i buf.length buf =
      some (render_from C alloc (((calls.getD []).take count).drop i) i buf) := by
  have hlen := length_view calls count hv
  induction fuel generalizing i buf with
  | zero =>
    have h : i = count := by omega
    subst h
    simp [stringify_loop, render_from, List.drop_of_length_le (Nat.le_of_eq hlen)]
  | succ fuel ih =>
    unfold stringify_loop
    by_cases hlt : i < count
    · rw [if_pos hlt, read_handle_view calls count i hlt,
        List.getElem?_eq_getElem (by omega),
        List.drop_eq_getElem_cons (by omega : i < ((calls.getD []).take count).length)]
      simp only [render_from]
      cases C.umockcall_stringify ((calls.getD []).take count)[i] with
      | none => rfl
      | some t =>
        simp only []
        cases alloc (i + 1) with
        | false => rfl
        | true =>
          simp only [if_true]
          rw [List.take_length, ← List.length_append]
          exact ih (i + 1) (buf ++ t) (by omega) (by omega)
    · have h : i = count := by omega
      subst h
      rw [if_neg hlt, List.drop_of_length_le (Nat.le_of_eq hlen)]
      rfl

theorem render_from_fst_le (C : Collaborators) (alloc : Nat → Bool)
    (l : List UMOCKCALL_HANDLE) (i : Nat) (buf : CString) :
    (render_from C alloc l i buf).1 ≤ i + l.length := by
  induction l generalizing i buf with
  | nil => simp [render_from]
  | cons h rest ih =>
    simp only [render_from, List.length_cons]
    cases C.umockcall_stringify h with
    | none => simp
    | some t =>
      simp only []
      cases alloc (i + 1) with
      | false => simp
      | true =>
        simp only [if_true]
        have := ih (i + 1) (buf ++ t)
        omega

theorem render_from_complete (C : Collaborators) (alloc : Nat → Bool)
    (l : List UMOCKCALL_HANDLE) (texts : List CString) (i : Nat) (buf : CString)
    (ht : l.map C.umockcall_stringify = texts.map some)
    (ha : ∀ k, k < l.length → alloc (i + k + 1) = true) :
    render_from C alloc l i buf = (i + l.length, buf ++ texts.flatten) := by
  induction l generalizing i buf texts with
  | nil =>
    cases texts with
    | nil => simp [render_from]
    | cons t ts => simp at ht
  | cons h rest ih =>
    cases texts with
    | nil => simp at ht
    | cons t ts =>
      simp only [List.map_cons, List.cons.injEq] at ht
      have h0 := ha 0 (by simp)
      simp only [Nat.add_zero] at h0
      simp only [render_from, ht.1, h0, if_true]
      rw [ih ts (i + 1) (buf ++ t) ht.2
        (fun k hk => by
          have := ha (k + 1) (by simp; omega)
          rw [← this]
          congr 1
          omega)]
      simp only [List.length_cons, List.flatten_cons, List.append_assoc, Prod.mk.injEq,
        and_true]
      omega

theorem render_from_texts (C : Collaborators) (alloc : Nat → Bool)
    (l : List UMOCKCALL_HANDLE) (i : Nat) (buf : CString)
    (h : ¬ (render_from C alloc l i buf).1 < i + l.length) :
    ∃ texts : List CString, l.map C.umockcall_stringify = texts.map some ∧
      (render_from C alloc l i buf).2 = buf ++ texts.flatten := by
  induction l generalizing i buf with
  | nil => exact ⟨[], rfl, by simp [render_from]⟩
  | cons c rest ih =>
    simp only [render_from, List.length_cons] at h ⊢
    cases hs : C.umockcall_stringify c with
    | none =>
      rw [hs] at h
      simp only [] at h
      omega
    | some t =>
      rw [hs] at h
      simp only [] at h ⊢
      cases ha : alloc (i + 1) with
      | false =>
        rw [ha] at h
        simp only [Bool.false_eq_true, if_false] at h
        omega
      | true =>
        rw [ha] at h
        simp only [if_true] at h ⊢
        obtain ⟨ts, hts, hbuf⟩ := ih (i + 1) (buf ++ t) (by omega)
        refine ⟨t :: ts, ?_, ?_⟩
        · simp only [List.map_cons, hs, hts]
        · rw [hbuf]
          simp

theorem render_from_stops_iff (C : Collaborators) (alloc : Nat → Bool)
    (l : List UMOCKCALL_HANDLE) (i : Nat) (buf : CString) :
    (render_from C alloc l i buf).1 < i + l.length ↔
      (∃ c ∈ l, C.umockcall_stringify c = none) ∨
      (∃ k, k < l.length ∧ alloc (i + k + 1) = false) := by
  induction l generalizing i buf with
  | nil => simp [render_from]
  | cons c rest ih =>
    simp only [render_from, List.length_cons]
    cases hs : C.umockcall_stringify c with
    | none =>
      simp only []
      constructor
      · intro _
        exact Or.inl ⟨c, List.mem_cons_self c rest, hs⟩
      · intro _
        omega
    | some t =>
      simp only []
      cases ha : alloc (i + 1) with
      | false =>
        simp only [Bool.false_eq_true, if_false]
        constructor
        · intro _
          exact Or.inr ⟨0, by omega, ha⟩
        · intro _
          omega
      | true =>
        simp only [if_true]
        have hih := ih (i + 1) (buf ++ t)
        have e1 : i + 1 + rest.length = i + (rest.length + 1) := by omega
        rw [e1] at hih
        rw [hih]
        constructor
        · rintro (⟨x, hx, hxn⟩ | ⟨k, hk, hka⟩)
          · exact Or.inl ⟨x, List.mem_cons_of_mem c hx, hxn⟩
          · refine Or.inr ⟨k + 1, by omega, ?_⟩
            rw [← hka]
            congr 1
            omega
        · rintro (⟨x, hx, hxn⟩ | ⟨k, hk, hka⟩)
          · rcases List.mem_cons.mp hx with rfl | hx2
            · rw [hs] at hxn
              exact absurd hxn (by simp)
            · exact Or.inl ⟨x, hx2, hxn⟩
          · cases k with
            | zero =>
              rw [Nat.add_zero, ha] at hka
              exact absurd hka (by simp)
            | succ k =>
              refine Or.inr ⟨k, by omega, ?_⟩
              rw [← hka]
              congr 1
              omega

/-- When the render loop stops early, it stops at a call that it reached (every earlier
call was stringified and appended) and whose stringify or growth failed. -/
theorem render_from_stop_cause (C : Collaborators) (alloc : Nat → Bool)
    (l : List UMOCKCALL_HANDLE) (i : Nat) (buf : CString)
    (h : (render_from C alloc l i buf).1 < i + l.length) :
    ∃ k c, l[k]? = some c ∧
      (C.umockcall_stringify c = none ∨ alloc (i + k + 1) = false) ∧
      ∀ k2 c2, k2 < k → l[k2]? = some c2 →
        C.umockcall_stringify c2 ≠ none ∧ alloc (i + k2 + 1) = true := by
  induction l generalizing i buf with
  | nil =>
    simp only [render_from, List.length_nil] at h
    omega
  | cons c rest ih =>
    simp only [render_from, List.length_cons] at h
    cases hs : C.umockcall_stringify c with
    | none =>
      exact ⟨0, c, List.getElem?_cons_zero, Or.inl hs, fun k2 c2 hk _ => absurd hk (by omega)⟩
    | some t =>
      rw [hs] at h
      simp only [] at h
      cases ha : alloc (i + 1) with
      | false =>
        exact ⟨0, c, List.getElem?_cons_zero, Or.inr ha, fun k2 c2 hk _ => absurd hk (by omega)⟩
      | true =>
        rw [ha] at h
        simp only [if_true] at h
        obtain ⟨k, x, hx, hcause, hbefore⟩ := ih (i + 1) (buf ++ t) (by omega)
        refine ⟨k + 1, x, by simpa using hx, ?_, ?_⟩
        · rcases hcause with h1 | h1
          · exact Or.inl h1
          · refine Or.inr ?_
            rw [← h1]
            congr 1
            omega
        · intro k2 c2 hk2 hc2
          cases k2 with
          | zero =>
            simp only [List.getElem?_cons_zero, Option.some.injEq] at hc2
            subst hc2
            exact ⟨by rw [hs]; simp, ha⟩
          | succ k2 =>
            have hb := hbefore k2 c2 (by omega) (by simpa using hc2)
            refine ⟨hb.1, ?_⟩
            rw [← hb.2]
            congr 1
            omega

theorem get_expected_calls_eq (C : Collaborators) (s : State) (alloc : Nat → Bool)
    (hv : s.Valid) :
    umock_c_get_expected_calls C s alloc =
      if alloc 0 then
        some (if (render_from C alloc s.expected 0 []).1 < s.expected_call_count then none
              else some (render_from C alloc s.expected 0 []).2,
          { s with expected_calls_string := some (render_from C alloc s.expected 0 []).2 })
      else some (none, s) := by
  unfold umock_c_get_expected_calls
  have h := stringify_loop_eq C s.expected_calls s.expected_call_count alloc hv.1
    s.expected_call_count 0 [] (by omega) (Nat.zero_le _)
  simp only [List.length_nil, List.drop_zero] at h
  rw [h]
  rfl

theorem get_actual_calls_eq (C : Collaborators) (s : State) (alloc : Nat → Bool)
    (hv : s.Valid) :
    umock_c_get_actual_calls C s alloc =
      if alloc 0 then
        some (if (render_from C alloc s.actual 0 []).1 < s.actual_call_count then none
              else some (render_from C alloc s.actual 0 []).2,
          { s with actual_calls_string := some (render_from C alloc s.actual 0 []).2 })
      else some (none, s) := by
  unfold umock_c_get_actual_calls
  have h := stringify_loop_eq C s.actual_calls s.actual_call_count alloc hv.2
    s.actual_call_count 0 [] (by omega) (Nat.zero_le _)
  simp only [List.length_nil, List.drop_zero] at h
  rw [h]
  rfl

theorem render_result_spec (C : Collaborators) (alloc : Nat → Bool)
    (l : List UMOCKCALL_HANDLE) (count : Nat) (hl : l.length = count) :
    ((if (render_from C alloc l 0 []).1 < count then none
        else some (render_from C alloc l 0 []).2) = none ↔
      ((∃ c ∈ l, C.umockcall_stringify c = none) ∨
        ∃ k, k < count ∧ alloc (k + 1) = false)) ∧
    (∀ t, (if (render_from C alloc l 0 []).1 < count then none
        else some (render_from C alloc l 0 []).2) = some t →
      ∃ texts : List CString, l.map C.umockcall_stringify = texts.map some ∧
        t = texts.flatten) := by
  have hiff := render_from_stops_iff C alloc l 0 []
  simp only [Nat.zero_add, hl] at hiff
  by_cases hlt : (render_from C alloc l 0 []).1 < count
  · rw [if_pos hlt]
    exact ⟨⟨fun _ => hiff.mp hlt, fun _ => rfl⟩, fun t ht => absurd ht (by simp)⟩
  · rw [if_neg hlt]
    refine ⟨⟨fun h => absurd h (by simp), fun h => absurd (hiff.mpr h) hlt⟩, ?_⟩
    intro t ht
    simp only [Option.some.injEq] at ht
    obtain ⟨texts, htexts, hbuf⟩ := render_from_texts C alloc l 0 []
      (by rw [Nat.zero_add, hl]; exact hlt)
    exact ⟨texts, htexts, by rw [← ht, hbuf]; simp⟩

theorem get_expected_calls_complete (C : Collaborators) (s : State) (alloc : Nat → Bool)
    (texts : List CString) (hv : s.Valid)
    (ht : s.expected.map C.umockcall_stringify = texts.map some)
    (ha : ∀ k, k ≤ s.expected_call_count → alloc k = true) :
    umock_c_get_expected_calls C s alloc =
      some (some texts.flatten, { s with expected_calls_string := some texts.flatten }) := by
  rw [get_expected_calls_eq C s alloc hv, if_pos (ha 0 (Nat.zero_le _)),
    render_from_complete C alloc s.expected texts 0 [] ht
      (fun k hk => ha (0 + k + 1) (by have := expected_length s hv; omega))]
  simp only [Nat.zero_add, expected_length s hv, Nat.lt_irrefl, if_false, List.nil_append]

theorem get_actual_calls_complete (C : Collaborators) (s : State) (alloc : Nat → Bool)
    (texts : List CString) (hv : s.Valid)
    (ht : s.actual.map C.umockcall_stringify = texts.map some)
    (ha : ∀ k, k ≤ s.actual_call_count → alloc k = true) :
    umock_c_get_actual_calls C s alloc =
      some (some texts.flatten, { s with actual_calls_string := some texts.flatten }) := by
  rw [get_actual_calls_eq C s alloc hv, if_pos (ha 0 (Nat.zero_le _)),
    render_from_complete C alloc s.actual texts 0 [] ht
      (fun k hk => ha (0 + k + 1) (by have := actual_length s hv; omega))]
  simp only [Nat.zero_add, actual_length s hv, Nat.lt_irrefl, if_false, List.nil_append]

/-! ## Claims on the reporter -/

/-- C5: when `umockcall_stringify` succeeds on every call of the registry (giving `texts`)
and every allocation succeeds, `umock_c_get_expected_calls` (resp.
`umock_c_get_actual_calls`) returns exactly the concatenation of `texts`, in registry order,
with nothing added; for an empty registry it returns the empty string, not NULL. -/
theorem get_calls_concatenation (C : Collaborators) (s : State) (alloc : Nat → Bool)
    (hv : s.Valid) :
    (∀ texts : List CString, s.expected.map C.umockcall_stringify = texts.map some →
      (∀ k, k ≤ s.expected_call_count → alloc k = true) →
      ∃ s1, umock_c_get_expected_calls C s alloc = some (some texts.flatten, s1)) ∧
    (∀ texts : List CString, s.actual.map C.umockcall_stringify = texts.map some →
      (∀ k, k ≤ s.actual_call_count → alloc k = true) →
      ∃ s1, umock_c_get_actual_calls C s alloc = some (some texts.flatten, s1)) ∧
    (s.expected = [] → alloc 0 = true →
      ∃ s1, umock_c_get_expected_calls C s alloc = some (some [], s1)) ∧
    (s.actual = [] → alloc 0 = true →
      ∃ s1, umock_c_get_actual_calls C s alloc = some (some [], s1)) := by
  have hle := expected_length s hv
  have hla := actual_length s hv
  refine ⟨fun texts ht ha => ⟨_, get_expected_calls_complete C s alloc texts hv ht ha⟩,
    fun texts ht ha => ⟨_, get_actual_calls_complete C s alloc texts hv ht ha⟩, ?_, ?_⟩
  · intro hE h0
    have hc : s.expected_call_count = 0 := by rw [← hle, hE]; rfl
    exact ⟨_, get_expected_calls_complete C s alloc [] hv (by rw [hE]; rfl) (fun k hk => by
      have : k = 0 := by omega
      rw [this]
      exact h0)⟩
  · intro hA h0
    have hc : s.actual_call_count = 0 := by rw [← hla, hA]; rfl
    exact ⟨_, get_actual_calls_complete C s alloc [] hv (by rw [hA]; rfl) (fun k hk => by
      have : k = 0 := by omega
      rw [this]
      exact h0)⟩

/-- Witness of C5: the three registered calls of the scenario of the spec. -/
theorem get_calls_concatenation_witness :
    scenario_state.Valid ∧
    (∃ s1, umock_c_get_expected_calls scenario_calls scenario_state (fun _ => true) =
      some (some "foo(1)bar(\"x\")foo(1)".toList, s1)) ∧
    (∃ s1, umock_c_get_actual_calls scenario_calls scenario_state (fun _ => true) =
      some (some [], s1)) :=
  ⟨by decide,
    (get_calls_concatenation scenario_calls scenario_state (fun _ => true) (by decide)).1
      ["foo(1)".toList, "bar(\"x\")".toList, "foo(1)".toList] (by decide) (fun _ _ => rfl),
    (get_calls_concatenation scenario_calls scenario_state (fun _ => true)
      (by decide)).2.2.2 (by decide) rfl⟩

/-- C6: `umock_c_get_expected_calls` (resp. `umock_c_get_actual_calls`) returns NULL if and
only if the first allocation fails, or `umockcall_stringify` returns NULL for some call of
the registry, or the growth for some call of the registry fails. When it returns NULL after
a successful first allocation, the loop stopped at a call it had reached, on a NULL from
`umockcall_stringify` or on a failed growth. A non-NULL result is the concatenation of the
texts of all the calls of the registry. -/
theorem get_calls_all_or_nothing (C : Collaborators) (s : State) (alloc : Nat → Bool)
    (hv : s.Valid) :
    (∃ r s1, umock_c_get_expected_calls C s alloc = some (r, s1) ∧
      (r = none ↔
        (alloc 0 = false ∨ (∃ c ∈ s.expected, C.umockcall_stringify c = none) ∨
          ∃ k, k < s.expected_call_count ∧ alloc (k + 1) = false)) ∧
      (r = none → alloc 0 = true →
        ∃ k c, s.expected[k]? = some c ∧
          (C.umockcall_stringify c = none ∨ alloc (k + 1) = false) ∧
          ∀ k2 c2, k2 < k → s.expected[k2]? = some c2 →
            C.umockcall_stringify c2 ≠ none ∧ alloc (k2 + 1) = true) ∧
      (∀ t, r = some t →
        ∃ texts : List CString, s.expected.map C.umockcall_stringify = texts.map some ∧
          t = texts.flatten)) ∧
    (∃ r s1, umock_c_get_actual_calls C s alloc = some (r, s1) ∧
      (r = none ↔
        (alloc 0 = false ∨ (∃ c ∈ s.actual, C.umockcall_stringify c = none) ∨
          ∃ k, k < s.actual_call_count ∧ alloc (k + 1) = false)) ∧
      (r = none → alloc 0 = true →
        ∃ k c, s.actual[k]? = some c ∧
          (C.umockcall_stringify c = none ∨ alloc (k + 1) = false) ∧
          ∀ k2 c2, k2 < k → s.actual[k2]? = some c2 →
            C.umockcall_stringify c2 ≠ none ∧ alloc (k2 + 1) = true) ∧
      (∀ t, r = some t →
        ∃ texts : List CString, s.actual.map C.umockcall_stringify = texts.map some ∧
          t = texts.flatten)) := by
  constructor
  · rw [get_expected_calls_eq C s alloc hv]
    cases h0 : alloc 0 with
    | false =>
      exact ⟨none, s, by simp, ⟨fun _ => Or.inl rfl, fun _ => rfl⟩,
        fun _ h => absurd h (by simp), fun t ht => absurd ht (by simp)⟩
    | true =>
      obtain ⟨hiff, htext⟩ :=
        render_result_spec C alloc s.expected s.expected_call_count (expected_length s hv)
      refine ⟨_, _, by rw [if_pos rfl], ?_, ?_, htext⟩
      · rw [hiff]
        simp
      · intro hr _
        by_cases hlt : (render_from C alloc s.expected 0 []).1 < s.expected_call_count
        · have hc := render_from_stop_cause C alloc s.expected 0 []
            (by rw [Nat.zero_add, expected_length s hv]; exact hlt)
          simpa only [Nat.zero_add] using hc
        · rw [if_neg hlt] at hr
          exact absurd hr (by simp)
  · rw [get_actual_calls_eq C s alloc hv]
    cases h0 : alloc 0 with
    | false =>
      exact ⟨none, s, by simp, ⟨fun _ => Or.inl rfl, fun _ => rfl⟩,
        fun _ h => absurd h (by simp), fun t ht => absurd ht (by simp)⟩
    | true =>
      obtain ⟨hiff, htext⟩ :=
        render_result_spec C alloc s.actual s.actual_call_count (actual_length s hv)
      refine ⟨_, _, by rw [if_pos rfl], ?_, ?_, htext⟩
      · rw [hiff]
        simp
      · intro hr _
        by_cases hlt : (render_from C alloc s.actual 0 []).1 < s.actual_call_count
        · have hc := render_from_stop_cause C alloc s.actual 0 []
            (by rw [Nat.zero_add, actual_length s hv]; exact hlt)
          simpa only [Nat.zero_add] using hc
        · rw [if_neg hlt] at hr
          exact absurd hr (by simp)

/-- Witness of C6: in the scenario of the spec, with the growth for the second call
failing, the result is NULL. -/
theorem get_calls_all_or_nothing_witness :
    scenario_state.Valid ∧
    (umock_c_get_expected_calls scenario_calls scenario_state (fun k => k != 2)).map Prod.fst =
      some none ∧
    (∃ r s1, umock_c_get_expected_calls scenario_calls scenario_state (fun k => k != 2) =
        some (r, s1) ∧
      (r = none ↔
        ((fun k => k != 2) 0 = false ∨
          (∃ c ∈ scenario_state.expected, scenario_calls.umockcall_stringify c = none) ∨
          ∃ k, k < scenario_state.expected_call_count ∧ (fun k => k != 2) (k + 1) = false)) ∧
      (r = none → (fun k => k != 2) 0 = true →
        ∃ k c, scenario_state.expected[k]? = some c ∧
          (scenario_calls.umockcall_stringify c = none ∨ (fun k => k != 2) (k + 1) = false) ∧
          ∀ k2 c2, k2 < k → scenario_state.expected[k2]? = some c2 →
            scenario_calls.umockcall_stringify c2 ≠ none ∧ (fun k => k != 2) (k2 + 1) = true) ∧
      (∀ t, r = some t →
        ∃ texts : List CString,
          scenario_state.expected.map scenario_calls.umockcall_stringify = texts.map some ∧
          t = texts.flatten)) :=
  ⟨by decide, by decide,
    (get_calls_all_or_nothing scenario_calls scenario_state (fun k => k != 2) (by decide)).1⟩

/-! ## Sequences of operations -/

theorem run_append (w : Nat) (C : Collaborators) (s : State) (ops1 ops2 : List Op) :
    run w C s (ops1 ++ ops2) =
      match run w C s ops1 with
      | none => none
      | some s1 => run w C s1 ops2 := by
  induction ops1 generalizing s with
  | nil => rfl
  | cons op ops ih =>
    simp only [List.cons_append, run]
    cases step w C s op with
    | none => rfl
    | some s1 => exact ih s1

theorem run_register (w : Nat) (C : Collaborators) (E : List UMOCKCALL_HANDLE) (s : State)
    (hv : s.Valid) :
    ∃ s1, run w C s (register_ops E) = some s1 ∧ s1.Valid ∧
      s1.expected = s.expected ++ E ∧
      s1.expected_call_count = s.expected_call_count + E.length ∧
      s1.actual_calls = s.actual_calls ∧ s1.actual_call_count = s.actual_call_count ∧
      s1.destroyed = s.destroyed := by
  induction E generalizing s with
  | nil => exact ⟨s, rfl, hv, by simp, rfl, rfl, rfl, rfl⟩
  | cons e rest ih =>
    obtain ⟨s1, hrun, hv1, hE, hc, hA, hAc, hD⟩ :=
      ih (umock_c_add_expected_call s e true).2 (add_expected_call_valid s e true hv)
    refine ⟨s1, ?_, hv1, ?_, ?_, hA, hAc, hD⟩
    · simp only [register_ops, List.map_cons, run, step]
      exact hrun
    · rw [hE, add_expected_call_expected s e hv.1]
      simp
    · rw [hc]
      show s.expected_call_count + 1 + rest.length = s.expected_call_count + (rest.length + 1)
      omega

/-- One observation, all allocations succeeding, follows `observe_spec`. -/
theorem add_actual_call_observe_spec (w : Nat) (C : Collaborators) (s : State)
    (c : UMOCKCALL_HANDLE) (hv : s.Valid) (hw : s.expected_call_count < 2 ^ w) :
    ∃ r s1, umock_c_add_actual_call w C s c true = some (r, s1) ∧ s1.Valid ∧
      (s1.expected, s1.actual) = observe_spec C (s.expected, s.actual) c ∧
      s1.expected_call_count ≤ s.expected_call_count := by
  cases hm : first_match C s.expected c with
  | none =>
    have hno := (first_match_eq_none_iff C s.expected c).mp hm
    have hcall := add_actual_call_no_match w C s c true hv.1
      (fun k e he => hno e (List.getElem?_mem he))
    simp only [if_true] at hcall
    have hstep : observe_spec C (s.expected, s.actual) c = (s.expected, s.actual ++ [c]) := by
      simp [observe_spec, hm]
    refine ⟨_, _, hcall, valid_append_actual s c hv, ?_, Nat.le_refl _⟩
    rw [hstep]
    simp only [State.actual, State.expected, Option.getD_some, Prod.mk.injEq, true_and]
    exact view_realloc_set s.actual_calls s.actual_call_count c hv.2
  | some j =>
    obtain ⟨e, hj, heq, hno⟩ := (first_match_eq_some_iff C s.expected c j).mp hm
    obtain ⟨s1, hcall, hE, hc, hA, hAc, _, _, _, hv1⟩ :=
      add_actual_call_match_state w C s c j e hv hw hj heq hno
    have hstep : observe_spec C (s.expected, s.actual) c = (s.expected.eraseIdx j, s.actual) := by
      simp [observe_spec, hm]
    refine ⟨e, s1, hcall true, hv1, ?_, by omega⟩
    rw [hstep, hE, actual_eq_of_fields s s1 hA hAc]

theorem run_observe (w : Nat) (C : Collaborators) (obs : List UMOCKCALL_HANDLE) (s : State)
    (hv : s.Valid) (hw : s.expected_call_count < 2 ^ w) :
    ∃ s1, run w C s (observe_ops (obs.map (fun c => (c, true)))) = some s1 ∧ s1.Valid ∧
      (s1.expected, s1.actual) = obs.foldl (observe_spec C) (s.expected, s.actual) := by
  induction obs generalizing s with
  | nil => exact ⟨s, rfl, hv, rfl⟩
  | cons c rest ih =>
    obtain ⟨r, s1, hcall, hv1, hspec, hle⟩ := add_actual_call_observe_spec w C s c hv hw
    obtain ⟨s2, hrun, hv2, hfold⟩ := ih s1 hv1 (by omega)
    refine ⟨s2, ?_, hv2, ?_⟩
    · simp only [observe_ops, List.map_cons, List.map_map, run, step, hcall, Option.map_some']
      simpa [observe_ops, List.map_map] using hrun
    · rw [hfold, hspec]
      rfl

theorem observe_spec_sublist (C : Collaborators) (obs E A : List UMOCKCALL_HANDLE) :
    (obs.foldl (observe_spec C) (E, A)).1.Sublist E ∧
    ∃ B, (obs.foldl (observe_spec C) (E, A)).2 = A ++ B ∧ B.Sublist obs := by
  induction obs generalizing E A with
  | nil => exact ⟨List.Sublist.refl _, [], by simp, List.Sublist.refl _⟩
  | cons c rest ih =>
    simp only [List.foldl_cons]
    cases hm : first_match C E c with
    | none =>
      have hstep : observe_spec C (E, A) c = (E, A ++ [c]) := by simp [observe_spec, hm]
      rw [hstep]
      obtain ⟨h1, B, hB, hsub⟩ := ih E (A ++ [c])
      refine ⟨h1, c :: B, ?_, hsub.cons₂ c⟩
      rw [hB]
      simp
    | some j =>
      have hstep : observe_spec C (E, A) c = (E.eraseIdx j, A) := by simp [observe_spec, hm]
      rw [hstep]
      obtain ⟨h1, B, hB, hsub⟩ := ih (E.eraseIdx j) A
      exact ⟨h1.trans (List.eraseIdx_sublist E j), B, hB, hsub.cons c⟩

theorem takes_match_path_first_match (w : Nat) (C : Collaborators) (s : State)
    (c : UMOCKCALL_HANDLE) (hv : s.Valid) (h : takes_match_path w C s c = true) :
    ∃ j, first_match C s.expected c = some j := by
  cases hm : first_match C s.expected c with
  | some j => exact ⟨j, rfl⟩
  | none =>
    have hno := (first_match_eq_none_iff C s.expected c).mp hm
    have hscan := add_actual_scan_no_match w C c s hv.1 s.expected_call_count 0 (by omega)
      (Nat.zero_le _) (fun k e _ he => hno e (List.getElem?_mem he))
    simp [takes_match_path, hscan] at h

theorem run_observe_matched (w : Nat) (C : Collaborators)
    (obs : List (UMOCKCALL_HANDLE × Bool)) (s : State) (hv : s.Valid)
    (hw : s.expected_call_count < 2 ^ w)
    (hall : all_take_match_path w C s obs = true) :
    ∃ s1, run w C s (observe_ops obs) = some s1 ∧ s1.Valid ∧
      s1.expected.length + obs.length = s.expected.length ∧
      s1.actual_calls = s.actual_calls ∧ s1.actual_call_count = s.actual_call_count := by
  induction obs generalizing s with
  | nil => exact ⟨s, rfl, hv, rfl, rfl, rfl⟩
  | cons p rest ih =>
    simp only [all_take_match_path, Bool.and_eq_true] at hall
    obtain ⟨j, hm⟩ := takes_match_path_first_match w C s p.1 hv hall.1
    obtain ⟨e, hj, heq, hno⟩ := (first_match_eq_some_iff C s.expected p.1 j).mp hm
    obtain ⟨s1, hcall, hE, hc, hA, hAc, _, _, _, hv1⟩ :=
      add_actual_call_match_state w C s p.1 j e hv hw hj heq hno
    have hrest := hall.2
    rw [hcall p.2] at hrest
    obtain ⟨s2, hrun, hv2, hlen, hA2, hAc2⟩ := ih s1 hv1 (by omega) hrest
    have hjl : j < s.expected.length := (List.getElem?_eq_some_iff.mp hj).1
    refine ⟨s2, ?_, hv2, ?_, hA2.trans hA, hAc2.trans hAc⟩
    · simp only [observe_ops, List.map_cons, run, step, hcall p.2, Option.map_some']
      exact hrun
    · rw [hE, List.length_eraseIdx_of_lt hjl] at hlen
      simp only [List.length_cons]
      omega

/-! ## Claims on sequences of operations -/

/-- C3: register the expectations `E` in order from the empty registries, then process the
observations `obs` in order, every allocation succeeding. Each observation that equals an
outstanding expectation consumes the earliest such one and any other observation is
appended to the actual registry (`process_spec`): the final expected registry is `E` with
the consumed elements deleted, in the original order, and the final actual registry is the
subsequence of the observations that matched nothing, in the original order. The texts
rendered from the final state are the concatenations over these two lists. -/
theorem process_in_order (w : Nat) (C : Collaborators) (E obs : List UMOCKCALL_HANDLE)
    (hw : E.length < 2 ^ w) :
    ∃ s, run w C initial_state
        (register_ops E ++ observe_ops (obs.map (fun c => (c, true)))) = some s ∧
      s.expected = (process_spec C E obs).1 ∧
      s.actual = (process_spec C E obs).2 ∧
      s.expected.Sublist E ∧ s.actual.Sublist obs ∧
      (∀ (alloc : Nat → Bool) (texts : List CString),
        (process_spec C E obs).1.map C.umockcall_stringify = texts.map some →
        (∀ k, alloc k = true) →
        (umock_c_get_expected_calls C s alloc).map Prod.fst = some (some texts.flatten)) ∧
      (∀ (alloc : Nat → Bool) (texts : List CString),
        (process_spec C E obs).2.map C.umockcall_stringify = texts.map some →
        (∀ k, alloc k = true) →
        (umock_c_get_actual_calls C s alloc).map Prod.fst = some (some texts.flatten)) := by
  obtain ⟨s1, hrun1, hv1, hE1, hc1, hA1, hAc1, _⟩ :=
    run_register w C E initial_state initial_state_valid
  have hE1b : s1.expected = E := by simpa [State.expected, initial_state] using hE1
  have hA1b : s1.actual = [] := by
    rw [actual_eq_of_fields initial_state s1 hA1 hAc1]
    rfl
  have hc1b : s1.expected_call_count = E.length := by
    rw [hc1]
    simp [initial_state]
  obtain ⟨s2, hrun2, hv2, hfold⟩ := run_observe w C obs s1 hv1 (by omega)
  rw [hE1b, hA1b] at hfold
  have hE2 : s2.expected = (process_spec C E obs).1 := congrArg Prod.fst hfold
  have hA2 : s2.actual = (process_spec C E obs).2 := congrArg Prod.snd hfold
  obtain ⟨hsub1, B, hB, hsub2⟩ := observe_spec_sublist C obs E []
  refine ⟨s2, ?_, hE2, hA2, ?_, ?_, ?_, ?_⟩
  · rw [run_append, hrun1]
    exact hrun2
  · rw [hE2]
    exact hsub1
  · rw [hA2]
    simp only [process_spec, hB, List.nil_append]
    exact hsub2
  · intro alloc texts ht ha
    rw [get_expected_calls_complete C s2 alloc texts hv2 (by rw [hE2]; exact ht)
      (fun k _ => ha k)]
    rfl
  · intro alloc texts ht ha
    rw [get_actual_calls_complete C s2 alloc texts hv2 (by rw [hA2]; exact ht)
      (fun k _ => ha k)]
    rfl

/-- Witness of C3: the scenario of the spec. Registered `foo(1)`, `bar("x")`, `foo(1)`
(handles 1, 2, 3), observed `foo(1)` and `baz()` (handles 4, 5): the outstanding
expectations are `[bar("x"), foo(1)]`, the actual calls `[baz()]`, and the two texts are
`bar("x")foo(1)` and `baz()`. -/
theorem process_in_order_witness :
    [1, 2, 3].length < 2 ^ 64 ∧
    ∃ s, run 64 scenario_calls initial_state
        (register_ops [1, 2, 3] ++ observe_ops ([4, 5].map (fun c => (c, true)))) = some s ∧
      s.expected = [2, 3] ∧ s.actual = [5] ∧
      (umock_c_get_expected_calls scenario_calls s (fun _ => true)).map Prod.fst =
        some (some "bar(\"x\")foo(1)".toList) ∧
      (umock_c_get_actual_calls scenario_calls s (fun _ => true)).map Prod.fst =
        some (some "baz()".toList) := by
  obtain ⟨s, hrun, hE, hA, _, _, htextE, htextA⟩ :=
    process_in_order 64 scenario_calls [1, 2, 3] [4, 5] (by decide)
  exact ⟨by decide, s, hrun, hE.trans (by decide), hA.trans (by decide),
    htextE (fun _ => true) ["bar(\"x\")".toList, "foo(1)".toList] (by decide) (fun _ => rfl),
    htextA (fun _ => true) ["baz()".toList] (by decide) (fun _ => rfl)⟩

/-- C10: register the expectations `E` from the empty registries, then pass as many
observations to `umock_c_add_actual_call`, whatever the allocation outcomes. If every
observation takes the match path, both registries are empty afterwards (counts 0), and
`umock_c_get_expected_calls` followed by `umock_c_get_actual_calls`, their 1-byte
allocation succeeding, return two equal, empty, non-NULL strings. -/
theorem fully_matched_round_trip (w : Nat) (C : Collaborators) (E : List UMOCKCALL_HANDLE)
    (obs : List (UMOCKCALL_HANDLE × Bool)) (alloc1 alloc2 : Nat → Bool) (s0 : State)
    (hw : E.length < 2 ^ w) (hlen : obs.length = E.length)
    (hreg : run w C initial_state (register_ops E) = some s0)
    (hall : all_take_match_path w C s0 obs = true)
    (h1 : alloc1 0 = true) (h2 : alloc2 0 = true) :
    ∃ s s1 s2, run w C initial_state (register_ops E ++ observe_ops obs) = some s ∧
      s.expected = [] ∧ s.expected_call_count = 0 ∧
      s.actual = [] ∧ s.actual_call_count = 0 ∧
      umock_c_get_expected_calls C s alloc1 = some (some [], s1) ∧
      umock_c_get_actual_calls C s1 alloc2 = some (some [], s2) ∧
      umock_c_get_actual_calls C s alloc2 =
        some (some [], { s with actual_calls_string := some [] }) := by
  obtain ⟨sa, hrun1, hva, hEa, hca, hAa, hAca, _⟩ :=
    run_register w C E initial_state initial_state_valid
  have hsa : sa = s0 := Option.some.inj (hrun1.symm.trans hreg)
  subst hsa
  have hEb : sa.expected = E := by simpa [State.expected, initial_state] using hEa
  have hcb : sa.expected_call_count = E.length := by
    rw [hca]
    simp [initial_state]
  obtain ⟨s, hrun2, hv, hl, hA, hAc⟩ :=
    run_observe_matched w C obs sa hva (by omega) hall
  rw [hEb] at hl
  have hE0 : s.expected = [] := List.eq_nil_of_length_eq_zero (by omega)
  have hc0 : s.expected_call_count = 0 := by
    rw [← expected_length s hv, hE0]
    rfl
  have hAc0 : s.actual_call_count = 0 := by
    rw [hAc, hAca]
    rfl
  have hA0 : s.actual = [] := by
    simp [State.actual, hAc0]
  have hgetE := get_expected_calls_complete C s alloc1 [] hv (by rw [hE0]; rfl)
    (fun k hk => by
      have : k = 0 := by omega
      rw [this]
      exact h1)
  have hgetA := get_actual_calls_complete C s alloc2 [] hv (by rw [hA0]; rfl)
    (fun k hk => by
      have : k = 0 := by omega
      rw [this]
      exact h2)
  have hgetA1 := get_actual_calls_complete C
    { s with expected_calls_string := some ([] : List CString).flatten } alloc2 [] hv
    (by
      show s.actual.map C.umockcall_stringify = _
      rw [hA0]
      rfl)
    (fun k hk => by
      have hk2 : k ≤ s.actual_call_count := hk
      have : k = 0 := by omega
      rw [this]
      exact h2)
  refine ⟨s, _, _, ?_, hE0, hc0, hA0, hAc0, hgetE, hgetA1, hgetA⟩
  rw [run_append, hrun1]
  exact hrun2

/-- Witness of C10: the two `foo(1)` and the `bar("x")` of the scenario, observed as
`bar("x")`, `foo(1)`, `foo(1)`. -/
theorem fully_matched_round_trip_witness :
    [1, 2, 3].length < 2 ^ 64 ∧
    [((2 : UMOCKCALL_HANDLE), true), (4, false), (4, true)].length = [1, 2, 3].length ∧
    run 64 scenario_calls initial_state (register_ops [1, 2, 3]) = some scenario_state ∧
    all_take_match_path 64 scenario_calls scenario_state
      [(2, true), (4, false), (4, true)] = true ∧
    ∃ s s1 s2, run 64 scenario_calls initial_state
        (register_ops [1, 2, 3] ++ observe_ops [(2, true), (4, false), (4, true)]) = some s ∧
      s.expected = [] ∧ s.expected_call_count = 0 ∧
      s.actual = [] ∧ s.actual_call_count = 0 ∧
      umock_c_get_expected_calls scenario_calls s (fun k => k == 0) = some (some [], s1) ∧
      umock_c_get_actual_calls scenario_calls s1 (fun k => k == 0) = some (some [], s2) ∧
      umock_c_get_actual_calls scenario_calls s (fun k => k == 0) =
        some (some [], { s with actual_calls_string := some [] }) :=
  ⟨by decide, by decide, by decide, by decide,
    fully_matched_round_trip 64 scenario_calls [1, 2, 3] [(2, true), (4, false), (4, true)]
      (fun k => k == 0) (fun k => k == 0) scenario_state (by decide) (by decide) (by decide)
      (by decide) rfl rfl⟩

/-! ## `umock_c_get_last_expected_call` -/

theorem get_last_expected_call_eq (s : State)
    (hv : s.expected_call_count ≤ (s.expected_calls.getD []).length) :
    umock_c_get_last_expected_call s = some (s.expected.getLast?.getD NULL_HANDLE) := by
  have hlen : s.expected.length = s.expected_call_count := length_view _ _ hv
  unfold umock_c_get_last_expected_call
  by_cases h0 : s.expected_call_count = 0
  · rw [if_pos h0]
    have hE : s.expected = [] := List.eq_nil_of_length_eq_zero (by omega)
    rw [hE]
    rfl
  · rw [if_neg h0, read_handle_view _ s.expected_call_count _ (by omega)]
    show s.expected[s.expected_call_count - 1]? = _
    rw [List.getLast?_eq_getElem?, hlen,
      List.getElem?_eq_getElem (by omega : s.expected_call_count - 1 < s.expected.length)]
    rfl

theorem first_match_index_le (C : Collaborators) (E : List UMOCKCALL_HANDLE)
    (c : UMOCKCALL_HANDLE) (j k : Nat) (x : UMOCKCALL_HANDLE)
    (hj : first_match C E c = some j) (hk : E[k]? = some x)
    (hx : C.umockcall_are_equal x c ≠ 0) : j ≤ k := by
  obtain ⟨_, _, _, hno⟩ := (first_match_eq_some_iff C E c j).mp hj
  by_contra hlt
  exact hx (hno k x (by omega) hk)

/-- C11: `umock_c_get_last_expected_call` returns NULL when the expected registry is empty
and otherwise its last element. After a successful `umock_c_add_expected_call` of `c` it
returns `c`. With the expected registry `E ++ [e]`: after an observation that consumes an
earlier element it still returns `e`; after an observation that consumes `e` it returns
the last element of `E` (NULL when `E` is empty). The function reads the statics and
writes none: its model returns a handle and no state. -/
theorem get_last_expected_call_spec (w : Nat) (C : Collaborators) (s : State)
    (c : UMOCKCALL_HANDLE) (hv : s.Valid) :
    (s.expected = [] → umock_c_get_last_expected_call s = some NULL_HANDLE) ∧
    (∀ E e, s.expected = E ++ [e] → umock_c_get_last_expected_call s = some e) ∧
    umock_c_get_last_expected_call (umock_c_add_expected_call s c true).2 = some c ∧
    (∀ E e ok r s1, s.expected_call_count < 2 ^ w → s.expected = E ++ [e] →
      umock_c_add_actual_call w C s c ok = some (r, s1) →
      ((∃ x ∈ E, C.umockcall_are_equal x c ≠ 0) →
        umock_c_get_last_expected_call s1 = some e) ∧
      ((∀ x ∈ E, C.umockcall_are_equal x c = 0) → C.umockcall_are_equal e c ≠ 0 →
        r = e ∧ s1.expected = E ∧
        umock_c_get_last_expected_call s1 = some (E.getLast?.getD NULL_HANDLE))) := by
  refine ⟨?_, ?_, ?_, ?_⟩
  · intro hE
    rw [get_last_expected_call_eq s hv.1, hE]
    rfl
  · intro E e hE
    rw [get_last_expected_call_eq s hv.1, hE, List.getLast?_concat]
    rfl
  · rw [get_last_expected_call_eq _ (add_expected_call_valid s c true hv).1,
      add_expected_call_expected s c hv.1, List.getLast?_concat]
    rfl
  · intro E e ok r s1 hw hE hcall
    constructor
    · rintro ⟨x, hxE, hx⟩
      obtain ⟨j, hjm⟩ := first_match_of_exists C s.expected c
        ⟨x, by rw [hE]; exact List.mem_append_left _ hxE, hx⟩
      obtain ⟨k, hk⟩ := List.mem_iff_getElem?.mp hxE
      have hkl : k < E.length := (List.getElem?_eq_some_iff.mp hk).1
      have hjk : j ≤ k := first_match_index_le C s.expected c j k x hjm
        (by rw [hE, List.getElem?_append_left hkl]; exact hk) hx
      obtain ⟨y, hj, heq, hno⟩ := (first_match_eq_some_iff C s.expected c j).mp hjm
      obtain ⟨s2, hcall2, hE2, _, _, _, _, _, _, hv2⟩ :=
        add_actual_call_match_state w C s c j y hv hw hj heq hno
      have hs : s1 = s2 := by
        have := (hcall2 ok).symm.trans hcall
        simp only [Option.some.injEq, Prod.mk.injEq] at this
        exact this.2.symm
      subst hs
      rw [get_last_expected_call_eq s1 hv2.1, hE2, hE,
        List.eraseIdx_append_of_lt_length (by omega), List.getLast?_concat]
      rfl
    · intro hnoE he
      have hj : s.expected[E.length]? = some e := by
        rw [hE, List.getElem?_append_right (Nat.le_refl _)]
        simp
      have hno : ∀ k x, k < E.length → s.expected[k]? = some x →
          C.umockcall_are_equal x c = 0 := by
        intro k x hk hx
        rw [hE, List.getElem?_append_left hk] at hx
        exact hnoE x (List.getElem?_mem hx)
      obtain ⟨s2, hcall2, hE2, _, _, _, _, _, _, hv2⟩ :=
        add_actual_call_match_state w C s c E.length e hv hw hj he hno
      have hrs := (hcall2 ok).symm.trans hcall
      simp only [Option.some.injEq, Prod.mk.injEq] at hrs
      obtain ⟨hr, hs⟩ := hrs
      subst hs
      have hE3 : s2.expected = E := by
        rw [hE2, hE, List.eraseIdx_append_of_length_le (Nat.le_refl _)]
        simp
      exact ⟨hr.symm, hE3, by rw [get_last_expected_call_eq s2 hv2.1, hE3]⟩

/-- Witness of C11: in the scenario of the spec the last expectation is handle 3; once the
observed `foo(1)` has consumed handle 1, it still is. -/
theorem get_last_expected_call_spec_witness :
    scenario_state.Valid ∧
    umock_c_get_last_expected_call scenario_state = some 3 ∧
    umock_c_get_last_expected_call (umock_c_add_expected_call scenario_state 4 true).2 =
      some 4 ∧
    (∀ ok r s1, umock_c_add_actual_call 64 scenario_calls scenario_state 4 ok = some (r, s1) →
      umock_c_get_last_expected_call s1 = some 3) :=
  ⟨by decide,
    (get_last_expected_call_spec 64 scenario_calls scenario_state 4 (by decide)).2.1
      [1, 2] 3 rfl,
    (get_last_expected_call_spec 64 scenario_calls scenario_state 4 (by decide)).2.2.1,
    fun ok r s1 h =>
      ((get_last_expected_call_spec 64 scenario_calls scenario_state 4 (by decide)).2.2.2
        [1, 2] 3 ok r s1 (by decide) rfl h).1 ⟨1, by decide, by decide⟩⟩

/-! ## Failures in `umock_c_add_actual_call` -/

/-- C12: when no element of the expected registry equals the observed call `c` and the
growth of the actual array fails, `umock_c_add_actual_call` returns NULL and the state is
exactly the one before: both arrays and counts are unchanged (`c` is not appended) and the
destroy log is unchanged (`c` is not destroyed). -/
theorem add_actual_call_unexpected_failure (w : Nat) (C : Collaborators) (s : State)
    (c : UMOCKCALL_HANDLE) (hv : s.Valid)
    (hno : ∀ e ∈ s.expected, C.umockcall_are_equal e c = 0) :
    ∃ s1, umock_c_add_actual_call w C s c false = some (NULL_HANDLE, s1) ∧ s1 = s ∧
      s1.expected = s.expected ∧ s1.expected_call_count = s.expected_call_count ∧
      s1.actual = s.actual ∧ s1.actual_call_count = s.actual_call_count ∧
      s1.destroyed = s.destroyed := by
  have hcall := add_actual_call_no_match w C s c false hv.1
    (fun k e he => hno e (List.getElem?_mem he))
  exact ⟨s, hcall, rfl, rfl, rfl, rfl, rfl, rfl⟩

/-- Witness of C12: the observed `baz()` of the scenario of the spec, the growth failing. -/
theorem add_actual_call_unexpected_failure_witness :
    scenario_state.Valid ∧
    (∀ e ∈ scenario_state.expected, scenario_calls.umockcall_are_equal e 5 = 0) ∧
    ∃ s1, umock_c_add_actual_call 64 scenario_calls scenario_state 5 false =
        some (NULL_HANDLE, s1) ∧ s1 = scenario_state ∧
      s1.expected = scenario_state.expected ∧
      s1.expected_call_count = scenario_state.expected_call_count ∧
      s1.actual = scenario_state.actual ∧
      s1.actual_call_count = scenario_state.actual_call_count ∧
      s1.destroyed = scenario_state.destroyed :=
  ⟨by decide, by decide,
    add_actual_call_unexpected_failure 64 scenario_calls scenario_state 5 (by decide)
      (by decide)⟩

/-- C13, as stated, fails: with the single expectation 1 and `umockcall_are_equal`
returning the error result -1, `umock_c_add_actual_call` returns the expectation 1 as the
matched handle and removes it from the expected registry. -/
theorem add_actual_call_error_result_counterexample :
    failing_calls.umockcall_are_equal 1 2 = -1 ∧
    single_state.Valid ∧ single_state.expected = [1] ∧
    (∃ s1, umock_c_add_actual_call 64 failing_calls single_state 2 true = some (1, s1) ∧
      s1.expected = [] ∧ s1.actual = [] ∧ s1.destroyed = [2]) ∧
    ¬ (∀ e ∈ single_state.expected,
        failing_calls.umockcall_are_equal e 2 ≠ 0 ∧
          failing_calls.umockcall_are_equal e 2 ≠ 1 →
        ∀ ok r s1, umock_c_add_actual_call 64 failing_calls single_state 2 ok = some (r, s1) →
          r ≠ e ∧ e ∈ s1.expected) := by
  refine ⟨by decide, by decide, by decide, ⟨_, rfl, by decide, by decide, by decide⟩, ?_⟩
  intro h
  have h1 := h 1 (by decide) (by decide) true 1 _ rfl
  exact h1.1 rfl

/-- C13, amended: `umock_c_add_actual_call` takes every non-zero result of
`umockcall_are_equal` as "equal". When the result for the expectation `e` at index `j` is an
error result (neither 0 nor 1) and the results for the earlier expectations are 0, `e` is
returned as the matched handle and removed from the expected registry, the observed call
is destroyed, and the actual registry is unchanged. -/
theorem add_actual_call_error_result_matches (w : Nat) (C : Collaborators) (s : State)
    (c : UMOCKCALL_HANDLE) (j : Nat) (e : UMOCKCALL_HANDLE) (hv : s.Valid)
    (hw : s.expected_call_count < 2 ^ w) (hj : s.expected[j]? = some e)
    (herr : C.umockcall_are_equal e c ≠ 0 ∧ C.umockcall_are_equal e c ≠ 1)
    (hno : ∀ k x, k < j → s.expected[k]? = some x → C.umockcall_are_equal x c = 0) :
    ∃ s1, (∀ ok, umock_c_add_actual_call w C s c ok = some (e, s1)) ∧
      s1.expected = s.expected.eraseIdx j ∧
      s1.expected_call_count = s.expected_call_count - 1 ∧
      s1.actual = s.actual ∧ s1.destroyed = s.destroyed ++ [c] := by
  obtain ⟨s1, hcall, hE, hcount, hA, hAc, hD, _, _, _⟩ :=
    add_actual_call_match_state w C s c j e hv hw hj herr.1 hno
  exact ⟨s1, hcall, hE, hcount, actual_eq_of_fields s s1 hA hAc, hD⟩

/-- Witness of C13, amended: the single expectation 1 and the error result -1. -/
theorem add_actual_call_error_result_matches_witness :
    single_state.Valid ∧ single_state.expected_call_count < 2 ^ 64 ∧
    single_state.expected[0]? = some 1 ∧
    (failing_calls.umockcall_are_equal 1 2 ≠ 0 ∧
      failing_calls.umockcall_are_equal 1 2 ≠ 1) ∧
    ∃ s1, (∀ ok, umock_c_add_actual_call 64 failing_calls single_state 2 ok = some (1, s1)) ∧
      s1.expected = single_state.expected.eraseIdx 0 ∧
      s1.expected_call_count = single_state.expected_call_count - 1 ∧
      s1.actual = single_state.actual ∧ s1.destroyed = single_state.destroyed ++ [2] :=
  ⟨by decide, by decide, by decide, by decide,
    add_actual_call_error_result_matches 64 failing_calls single_state 2 0 1 (by decide)
      (by decide) (by decide) (by decide) (fun k x hk _ => absurd hk (by omega))⟩

/-! ## The render reads the registry only -/

/-- C16: the text returned by `umock_c_get_expected_calls` is the same in any two states
with the same expected registry (whatever their cached strings and their actual
registries), for the same collaborators and allocation outcomes. The call leaves both
arrays and counts, the other string and the destroy log as they are, and a second
render, right after, returns the same text. The same holds for `umock_c_get_actual_calls`
with the roles of the two registries swapped. -/
theorem get_calls_pure (C : Collaborators) (s t : State) (alloc : Nat → Bool)
    (hs : s.Valid) (ht : t.Valid) :
    (s.expected = t.expected →
      (umock_c_get_expected_calls C s alloc).map Prod.fst =
        (umock_c_get_expected_calls C t alloc).map Prod.fst) ∧
    (s.actual = t.actual →
      (umock_c_get_actual_calls C s alloc).map Prod.fst =
        (umock_c_get_actual_calls C t alloc).map Prod.fst) ∧
    (∃ r s1 s2, umock_c_get_expected_calls C s alloc = some (r, s1) ∧
      s1.expected_calls = s.expected_calls ∧
      s1.expected_call_count = s.expected_call_count ∧
      s1.actual_calls = s.actual_calls ∧ s1.actual_call_count = s.actual_call_count ∧
      s1.expected = s.expected ∧ s1.actual = s.actual ∧
      s1.actual_calls_string = s.actual_calls_string ∧ s1.destroyed = s.destroyed ∧
      umock_c_get_expected_calls C s1 alloc = some (r, s2)) ∧
    (∃ r s1 s2, umock_c_get_actual_calls C s alloc = some (r, s1) ∧
      s1.expected_calls = s.expected_calls ∧
      s1.expected_call_count = s.expected_call_count ∧
      s1.actual_calls = s.actual_calls ∧ s1.actual_call_count = s.actual_call_count ∧
      s1.expected = s.expected ∧ s1.actual = s.actual ∧
      s1.expected_calls_string = s.expected_calls_string ∧ s1.destroyed = s.destroyed ∧
      umock_c_get_actual_calls C s1 alloc = some (r, s2)) := by
  have hls := expected_length s hs
  have hlt := expected_length t ht
  have hlsa := actual_length s hs
  have hlta := actual_length t ht
  refine ⟨?_, ?_, ?_, ?_⟩
  · intro hE
    have hc : s.expected_call_count = t.expected_call_count := by rw [← hls, ← hlt, hE]
    rw [get_expected_calls_eq C s alloc hs, get_expected_calls_eq C t alloc ht, hE, hc]
    cases alloc 0 <;> rfl
  · intro hA
    have hc : s.actual_call_count = t.actual_call_count := by rw [← hlsa, ← hlta, hA]
    rw [get_actual_calls_eq C s alloc hs, get_actual_calls_eq C t alloc ht, hA, hc]
    cases alloc 0 <;> rfl
  · have h1 := get_expected_calls_eq C s alloc hs
    cases ha : alloc 0 with
    | false =>
      rw [ha] at h1
      exact ⟨none, s, s, h1, rfl, rfl, rfl, rfl, rfl, rfl, rfl, rfl, h1⟩
    | true =>
      rw [ha] at h1
      simp only [if_true] at h1
      have h2 := get_expected_calls_eq C
        { s with expected_calls_string := some (render_from C alloc s.expected 0 []).2 }
        alloc hs
      rw [ha] at h2
      simp only [if_true] at h2
      exact ⟨_, _, _, h1, rfl, rfl, rfl, rfl, rfl, rfl, rfl, rfl, h2⟩
  · have h1 := get_actual_calls_eq C s alloc hs
    cases ha : alloc 0 with
    | false =>
      rw [ha] at h1
      exact ⟨none, s, s, h1, rfl, rfl, rfl, rfl, rfl, rfl, rfl, rfl, h1⟩
    | true =>
      rw [ha] at h1
      simp only [if_true] at h1
      have h2 := get_actual_calls_eq C
        { s with actual_calls_string := some (render_from C alloc s.actual 0 []).2 }
        alloc hs
      rw [ha] at h2
      simp only [if_true] at h2
      exact ⟨_, _, _, h1, rfl, rfl, rfl, rfl, rfl, rfl, rfl, rfl, h2⟩

/-- Witness of C16: two states of the scenario with the same expected registry and
different cached strings, actual registries and destroy logs. -/
theorem get_calls_pure_witness :
    scenario_state.Valid ∧ scenario_state_other.Valid ∧
    scenario_state.expected = scenario_state_other.expected ∧
    (umock_c_get_expected_calls scenario_calls scenario_state (fun _ => true)).map Prod.fst =
      (umock_c_get_expected_calls scenario_calls scenario_state_other
        (fun _ => true)).map Prod.fst ∧
    (∃ r s1 s2, umock_c_get_actual_calls scenario_calls scenario_state_other (fun _ => true) =
        some (r, s1) ∧
      s1.expected_calls = scenario_state_other.expected_calls ∧
      s1.expected_call_count = scenario_state_other.expected_call_count ∧
      s1.actual_calls = scenario_state_other.actual_calls ∧
      s1.actual_call_count = scenario_state_other.actual_call_count ∧
      s1.expected = scenario_state_other.expected ∧
      s1.actual = scenario_state_other.actual ∧
      s1.expected_calls_string = scenario_state_other.expected_calls_string ∧
      s1.destroyed = scenario_state_other.destroyed ∧
      umock_c_get_actual_calls scenario_calls s1 (fun _ => true) = some (r, s2)) :=
  ⟨by decide, by decide, by decide,
    (get_calls_pure scenario_calls scenario_state scenario_state_other (fun _ => true)
      (by decide) (by decide)).1 (by decide),
    (get_calls_pure scenario_calls scenario_state_other scenario_state (fun _ => true)
      (by decide) (by decide)).2.2.2⟩

/-! ## The test after the scan loop -/

theorem takes_match_path_iff (w : Nat) (C : Collaborators) (s : State)
    (c : UMOCKCALL_HANDLE) (hv : s.Valid) (hw : s.expected_call_count < 2 ^ w) :
    takes_match_path w C s c = true ↔ ∃ e ∈ s.expected, C.umockcall_are_equal e c ≠ 0 := by
  constructor
  · intro h
    obtain ⟨j, hj⟩ := takes_match_path_first_match w C s c hv h
    obtain ⟨e, he, heq, _⟩ := (first_match_eq_some_iff C s.expected c j).mp hj
    exact ⟨e, List.getElem?_mem he, heq⟩
  · intro h
    obtain ⟨j, hjm⟩ := first_match_of_exists C s.expected c h
    obtain ⟨e, hj, heq, hno⟩ := (first_match_eq_some_iff C s.expected c j).mp hjm
    have hjc : j < s.expected_call_count := by
      have := (List.getElem?_eq_some_iff.mp hj).1
      have hl := expected_length s hv
      omega
    obtain ⟨blk, hmove, _, _⟩ := memmove_handles_view s.expected_calls _ j hv.1 hjc
    have hscan := add_actual_scan_match w C c s blk s.expected_call_count 0 j e (by omega)
      (Nat.zero_le j) hjc hj heq (fun k x _ hkj hx => hno k x hkj hx) hmove
    simp only [takes_match_path, hscan, decide_eq_true_eq]
    exact size_dec_index_ne_count w j _ hjc hw

/-- C17: with the decrements taken modulo `2 ^ w` and the expected count a `size_t` value.
After a match at index `j` the scan loop leaves `i = j - 1` modulo `2 ^ w` (which is
`2 ^ w - 1` for `j = 0`) and the count one less, and the test `i == expected_call_count` is
false; after a loop without a match `i` is the count and the test is true. Hence the match
path is taken if and only if some expectation is equal to the call, a matched call leaves
the actual array and count untouched, and an unmatched call whose growth succeeds is
appended. -/
theorem classification_survives_wrap (w : Nat) (C : Collaborators) (s : State)
    (c : UMOCKCALL_HANDLE) (hv : s.Valid) (hw : s.expected_call_count < 2 ^ w) :
    (∀ j e, s.expected[j]? = some e → C.umockcall_are_equal e c ≠ 0 →
      (∀ k x, k < j → s.expected[k]? = some x → C.umockcall_are_equal x c = 0) →
      ∃ s1, add_actual_scan w C c s.expected_call_count 0 s = some (e, size_dec w j, s1) ∧
        s1.expected_call_count = s.expected_call_count - 1 ∧
        size_dec w j ≠ s1.expected_call_count ∧
        (j = 0 → size_dec w j = 2 ^ w - 1) ∧ (0 < j → size_dec w j = j - 1)) ∧
    ((∀ e ∈ s.expected, C.umockcall_are_equal e c = 0) →
      add_actual_scan w C c s.expected_call_count 0 s =
        some (NULL_HANDLE, s.expected_call_count, s)) ∧
    (takes_match_path w C s c = true ↔ ∃ e ∈ s.expected, C.umockcall_are_equal e c ≠ 0) ∧
    (∀ ok r s1, umock_c_add_actual_call w C s c ok = some (r, s1) →
      ((∃ e ∈ s.expected, C.umockcall_are_equal e c ≠ 0) →
        s1.actual_calls = s.actual_calls ∧ s1.actual_call_count = s.actual_call_count ∧
        s1.actual = s.actual) ∧
      ((∀ e ∈ s.expected, C.umockcall_are_equal e c = 0) → ok = true →
        s1.actual = s.actual ++ [c] ∧ s1.expected = s.expected)) := by
  refine ⟨?_, ?_, takes_match_path_iff w C s c hv hw, ?_⟩
  · intro j e hj heq hno
    have hjc : j < s.expected_call_count := by
      have := (List.getElem?_eq_some_iff.mp hj).1
      have hl := expected_length s hv
      omega
    obtain ⟨blk, hmove, _, _⟩ := memmove_handles_view s.expected_calls _ j hv.1 hjc
    have hscan := add_actual_scan_match w C c s blk s.expected_call_count 0 j e (by omega)
      (Nat.zero_le j) hjc hj heq (fun k x _ hkj hx => hno k x hkj hx) hmove
    have hdec := size_dec_pos w s.expected_call_count (by omega) (by omega)
    refine ⟨_, hscan, hdec, ?_, ?_, ?_⟩
    · show size_dec w j ≠ size_dec w s.expected_call_count
      exact size_dec_index_ne_count w j _ hjc hw
    · intro h0
      rw [h0]
      exact size_dec_zero w
    · intro h0
      exact size_dec_pos w j h0 (by omega)
  · intro hno
    exact add_actual_scan_no_match w C c s hv.1 s.expected_call_count 0 (by omega)
      (Nat.zero_le _) (fun k e _ he => hno e (List.getElem?_mem he))
  · intro ok r s1 hcall
    constructor
    · intro h
      obtain ⟨j, hjm⟩ := first_match_of_exists C s.expected c h
      obtain ⟨e, hj, heq, hno⟩ := (first_match_eq_some_iff C s.expected c j).mp hjm
      obtain ⟨s2, hcall2, _, _, hA, hAc, _, _, _, _⟩ :=
        add_actual_call_match_state w C s c j e hv hw hj heq hno
      have hs := (hcall2 ok).symm.trans hcall
      simp only [Option.some.injEq, Prod.mk.injEq] at hs
      rw [← hs.2]
      exact ⟨hA, hAc, actual_eq_of_fields s s2 hA hAc⟩
    · intro hno hok
      subst hok
      have hcall2 := add_actual_call_no_match w C s c true hv.1
        (fun k e he => hno e (List.getElem?_mem he))
      have hs := hcall2.symm.trans hcall
      simp only [if_true, Option.some.injEq, Prod.mk.injEq] at hs
      rw [← hs.2]
      refine ⟨?_, rfl⟩
      simp only [State.actual, Option.getD_some]
      exact view_realloc_set s.actual_calls s.actual_call_count c hv.2

/-- Witness of C17: the observed `foo(1)` of the scenario matches at index 0, where `i--`
wraps to `2 ^ 64 - 1`. -/
theorem classification_survives_wrap_witness :
    scenario_state.Valid ∧ scenario_state.expected_call_count < 2 ^ 64 ∧
    (∃ s1, add_actual_scan 64 scenario_calls 4 scenario_state.expected_call_count 0
        scenario_state = some (1, size_dec 64 0, s1) ∧
      s1.expected_call_count = scenario_state.expected_call_count - 1 ∧
      size_dec 64 0 ≠ s1.expected_call_count ∧
      (0 = 0 → size_dec 64 0 = 2 ^ 64 - 1) ∧ (0 < 0 → size_dec 64 0 = 0 - 1)) ∧
    takes_match_path 64 scenario_calls scenario_state 4 = true ∧
    takes_match_path 64 scenario_calls scenario_state 5 = false :=
  ⟨by decide, by decide,
    (classification_survives_wrap 64 scenario_calls scenario_state 4 (by decide)
      (by decide)).1 0 1 (by decide) (by decide) (fun k x hk _ => absurd hk (by omega)),
    by decide, by decide⟩

/-! ## Every access is inside its block -/

/-- Whatever the width `w`, `umock_c_add_actual_call` returns in a state whose counts fit
their blocks; it decrements the expected count only when it is positive, it puts no new
handle in the expected registry and at most `c` in the actual one. -/
theorem add_actual_call_total (w : Nat) (C : Collaborators) (s : State)
    (c : UMOCKCALL_HANDLE) (ok : Bool) (hv : s.Valid) :
    ∃ r s1, umock_c_add_actual_call w C s c ok = some (r, s1) ∧ s1.Valid ∧
      (s1.expected_call_count = s.expected_call_count ∨
        (0 < s.expected_call_count ∧
          s1.expected_call_count = size_dec w s.expected_call_count)) ∧
      (∀ h ∈ s1.expected, h ∈ s.expected) ∧
      (∀ h ∈ s1.actual, h ∈ s.actual ∨ h = c) := by
  cases hm : first_match C s.expected c with
  | none =>
    have hno := (first_match_eq_none_iff C s.expected c).mp hm
    have hcall := add_actual_call_no_match w C s c ok hv.1
      (fun k e he => hno e (List.getElem?_mem he))
    cases ok with
    | false =>
      exact ⟨_, _, hcall, hv, Or.inl rfl, fun h hh => hh, fun h hh => Or.inl hh⟩
    | true =>
      simp only [if_true] at hcall
      refine ⟨_, _, hcall, valid_append_actual s c hv, Or.inl rfl, fun h hh => hh, ?_⟩
      intro h hh
      simp only [State.actual, Option.getD_some] at hh
      rw [view_realloc_set s.actual_calls s.actual_call_count c hv.2] at hh
      rcases List.mem_append.mp hh with h1 | h1
      · exact Or.inl h1
      · exact Or.inr (List.mem_singleton.mp h1)
  | some j =>
    obtain ⟨e, hj, heq, hno⟩ := (first_match_eq_some_iff C s.expected c j).mp hm
    have hjc : j < s.expected_call_count := by
      have := (List.getElem?_eq_some_iff.mp hj).1
      have hl := expected_length s hv
      omega
    obtain ⟨blk, hmove, hlen, htake⟩ := memmove_handles_view s.expected_calls _ j hv.1 hjc
    have hscan := add_actual_scan_match w C c s blk s.expected_call_count 0 j e (by omega)
      (Nat.zero_le j) hjc hj heq (fun k x _ hkj hx => hno k x hkj hx) hmove
    have hdec := size_dec_le w s.expected_call_count (by omega)
    have hv1 : State.Valid
        { s with expected_calls := some blk,
                 expected_call_count := size_dec w s.expected_call_count } := by
      refine ⟨?_, hv.2⟩
      have := hv.1
      simp only [Option.getD_some, hlen]
      omega
    have hmem : ∀ h ∈ blk.take (size_dec w s.expected_call_count), h ∈ s.expected := by
      intro h hh
      have h1 := List.take_subset_take_left blk hdec hh
      rw [htake] at h1
      exact List.mem_of_mem_eraseIdx h1
    unfold umock_c_add_actual_call
    rw [hscan]
    simp only []
    split
    · cases ok with
      | false =>
        exact ⟨_, _, rfl, hv1, Or.inr ⟨by omega, rfl⟩, hmem, fun h hh => Or.inl hh⟩
      | true =>
        refine ⟨_, _, rfl, valid_append_actual _ c hv1, Or.inr ⟨by omega, rfl⟩, hmem, ?_⟩
        intro h hh
        simp only [State.actual, Option.getD_some] at hh
        rw [view_realloc_set s.actual_calls s.actual_call_count c hv.2] at hh
        rcases List.mem_append.mp hh with h1 | h1
        · exact Or.inl h1
        · exact Or.inr (List.mem_singleton.mp h1)
    · exact ⟨_, _, rfl, hv1, Or.inr ⟨by omega, rfl⟩, hmem, fun h hh => Or.inl hh⟩

/-- C18: in a state whose expected count is at most the number of elements of the expected
block, every read `expected_calls[i]` with `i < expected_call_count` and every move of
`expected_call_count - i - 1` elements from index `i + 1` to index `i` is inside the block,
so `umock_c_add_actual_call` returns without an access outside the block; the read of
`umock_c_get_last_expected_call` at index `expected_call_count - 1` is made only for a
positive count and is inside the block; and `umock_c_add_actual_call` decrements the count
only when it is positive, to exactly one less. -/
theorem index_safety (w : Nat) (C : Collaborators) (s : State) (c : UMOCKCALL_HANDLE)
    (ok : Bool) (hv : s.Valid) :
    (∀ i, i < s.expected_call_count → ∃ h, read_handle s.expected_calls i = some h) ∧
    (∀ i, i < s.expected_call_count →
      ∃ blk, memmove_handles s.expected_calls i (i + 1) (s.expected_call_count - i - 1) =
          some blk ∧ blk.length = (s.expected_calls.getD []).length) ∧
    (∃ r s1, umock_c_add_actual_call w C s c ok = some (r, s1) ∧
      (s1.expected_call_count = s.expected_call_count ∨
        (0 < s.expected_call_count ∧
          (s.expected_call_count ≤ 2 ^ w →
            s1.expected_call_count = s.expected_call_count - 1)))) ∧
    (∃ h, umock_c_get_last_expected_call s = some h) ∧
    (s.expected_call_count = 0 → umock_c_get_last_expected_call s = some NULL_HANDLE) ∧
    (0 < s.expected_call_count →
      umock_c_get_last_expected_call s =
        read_handle s.expected_calls (s.expected_call_count - 1) ∧
      ∃ h, read_handle s.expected_calls (s.expected_call_count - 1) = some h) := by
  have hl := expected_length s hv
  have hread : ∀ i, i < s.expected_call_count →
      ∃ h, read_handle s.expected_calls i = some h := by
    intro i hi
    rw [read_handle_view _ _ _ hi]
    exact ⟨_, List.getElem?_eq_getElem (by unfold State.expected at hl; omega)⟩
  refine ⟨hread, ?_, ?_, ⟨_, get_last_expected_call_eq s hv.1⟩, ?_, ?_⟩
  · intro i hi
    obtain ⟨blk, hmove, hlen, _⟩ := memmove_handles_view s.expected_calls _ i hv.1 hi
    exact ⟨blk, hmove, hlen⟩
  · obtain ⟨r, s1, hcall, _, hcount, _, _⟩ := add_actual_call_total w C s c ok hv
    refine ⟨r, s1, hcall, ?_⟩
    rcases hcount with h1 | ⟨h0, h1⟩
    · exact Or.inl h1
    · exact Or.inr ⟨h0, fun hle => by rw [h1, size_dec_pos w _ h0 hle]⟩
  · intro h0
    simp [umock_c_get_last_expected_call, h0]
  · intro h0
    have hne : s.expected_call_count ≠ 0 := by omega
    exact ⟨by simp [umock_c_get_last_expected_call, hne], hread _ (by omega)⟩

/-- Witness of C18: the scenario of the spec, observing `foo(1)`. -/
theorem index_safety_witness :
    scenario_state.Valid ∧
    (∃ r s1, umock_c_add_actual_call 64 scenario_calls scenario_state 4 true = some (r, s1) ∧
      (s1.expected_call_count = scenario_state.expected_call_count ∨
        (0 < scenario_state.expected_call_count ∧
          (scenario_state.expected_call_count ≤ 2 ^ 64 →
            s1.expected_call_count = scenario_state.expected_call_count - 1)))) ∧
    (∃ h, umock_c_get_last_expected_call scenario_state = some h) :=
  ⟨by decide,
    (index_safety 64 scenario_calls scenario_state 4 true (by decide)).2.2.1,
    (index_safety 64 scenario_calls scenario_state 4 true (by decide)).2.2.2.1⟩

/-! ## What the registries hold after a run -/

theorem step_total (w : Nat) (C : Collaborators) (s : State) (op : Op) (hv : s.Valid) :
    ∃ s1, step w C s op = some s1 := by
  cases op with
  | add_expected_call c ok => exact ⟨_, rfl⟩
  | add_actual_call c ok =>
    obtain ⟨r, s1, hcall, _⟩ := add_actual_call_total w C s c ok hv
    exact ⟨s1, by simp [step, hcall]⟩
  | reset_all_calls =>
    simp only [step, reset_all_calls_eq s hv]
    exact ⟨_, rfl⟩
  | get_expected_calls alloc =>
    simp only [step, get_expected_calls_eq C s alloc hv]
    cases alloc 0 <;> exact ⟨_, rfl⟩
  | get_actual_calls alloc =>
    simp only [step, get_actual_calls_eq C s alloc hv]
    cases alloc 0 <;> exact ⟨_, rfl⟩
  | deinit =>
    simp only [step, umock_c_deinit, reset_all_calls_eq s hv]
    exact ⟨_, rfl⟩

theorem run_total (w : Nat) (C : Collaborators) (ops : List Op) (s : State) (hv : s.Valid) :
    ∃ s1, run w C s ops = some s1 := by
  induction ops generalizing s with
  | nil => exact ⟨s, rfl⟩
  | cons op ops ih =>
    obtain ⟨s1, hs1⟩ := step_total w C s op hv
    obtain ⟨s2, hs2⟩ := ih s1 (step_valid w C s s1 op hv hs1)
    exact ⟨s2, by simp [run, hs1, hs2]⟩

/-- A handle held by a registry after an operation was held before it or is the handle that
the operation received. -/
theorem step_members (w : Nat) (C : Collaborators) (s s1 : State) (op : Op) (hv : s.Valid)
    (h : step w C s op = some s1) :
    (∀ x ∈ s1.expected, x ∈ s.expected ∨ Op.call op = some x) ∧
    (∀ x ∈ s1.actual, x ∈ s.actual ∨ Op.call op = some x) := by
  cases op with
  | add_expected_call c ok =>
    simp only [step, Option.some.injEq] at h
    subst h
    cases ok with
    | false => exact ⟨fun x hx => Or.inl hx, fun x hx => Or.inl hx⟩
    | true =>
      refine ⟨?_, fun x hx => Or.inl hx⟩
      intro x hx
      rw [add_expected_call_expected s c hv.1] at hx
      rcases List.mem_append.mp hx with h1 | h1
      · exact Or.inl h1
      · exact Or.inr (by rw [List.mem_singleton.mp h1]; rfl)
  | add_actual_call c ok =>
    obtain ⟨r, s2, hcall, _, _, hE, hA⟩ := add_actual_call_total w C s c ok hv
    simp only [step, hcall, Option.map_some', Option.some.injEq] at h
    subst h
    refine ⟨fun x hx => Or.inl (hE x hx), ?_⟩
    intro x hx
    rcases hA x hx with h1 | h1
    · exact Or.inl h1
    · exact Or.inr (by rw [h1]; rfl)
  | reset_all_calls =>
    simp only [step, Option.map_eq_some', Prod.exists, exists_eq_right] at h
    obtain ⟨r, hr⟩ := h
    obtain ⟨h1, h2, h3, h4⟩ := reset_all_calls_fields s s1 r hr
    constructor <;> intro x hx
    · simp [State.expected, h1] at hx
    · simp [State.actual, h3] at hx
  | get_expected_calls alloc =>
    simp only [step, Option.map_eq_some', Prod.exists, exists_eq_right] at h
    obtain ⟨r, hr⟩ := h
    obtain ⟨h1, h2, h3, h4, _, _⟩ := get_expected_calls_frame C s s1 alloc r hr
    rw [expected_eq_of_fields s s1 h1 h2, actual_eq_of_fields s s1 h3 h4]
    exact ⟨fun x hx => Or.inl hx, fun x hx => Or.inl hx⟩
  | get_actual_calls alloc =>
    simp only [step, Option.map_eq_some', Prod.exists, exists_eq_right] at h
    obtain ⟨r, hr⟩ := h
    obtain ⟨h1, h2, h3, h4, _, _⟩ := get_actual_calls_frame C s s1 alloc r hr
    rw [expected_eq_of_fields s s1 h1 h2, actual_eq_of_fields s s1 h3 h4]
    exact ⟨fun x hx => Or.inl hx, fun x hx => Or.inl hx⟩
  | deinit =>
    simp only [step, umock_c_deinit, reset_all_calls_eq s hv, Option.some.injEq] at h
    subst h
    constructor <;> intro x hx
    · simp [State.expected] at hx
    · simp [State.actual] at hx

theorem run_members (w : Nat) (C : Collaborators) (ops : List Op) (s s1 : State)
    (hv : s.Valid) (h : run w C s ops = some s1) :
    (∀ x ∈ s1.expected, x ∈ s.expected ∨ ∃ op ∈ ops, Op.call op = some x) ∧
    (∀ x ∈ s1.actual, x ∈ s.actual ∨ ∃ op ∈ ops, Op.call op = some x) := by
  induction ops generalizing s with
  | nil =>
    simp only [run, Option.some.injEq] at h
    subst h
    exact ⟨fun x hx => Or.inl hx, fun x hx => Or.inl hx⟩
  | cons op ops ih =>
    simp only [run] at h
    split at h
    · exact absurd h (by simp)
    · rename_i s2 hs2
      obtain ⟨hE, hA⟩ := ih s2 (step_valid w C s s2 op hv hs2) h
      obtain ⟨hE2, hA2⟩ := step_members w C s s2 op hv hs2
      constructor <;> intro x hx
      · rcases hE x hx with h1 | ⟨o, ho, hc⟩
        · rcases hE2 x h1 with h2 | h2
          · exact Or.inl h2
          · exact Or.inr ⟨op, List.mem_cons_self _ _, h2⟩
        · exact Or.inr ⟨o, List.mem_cons_of_mem _ ho, hc⟩
      · rcases hA x hx with h1 | ⟨o, ho, hc⟩
        · rcases hA2 x h1 with h2 | h2
          · exact Or.inl h2
          · exact Or.inr ⟨op, List.mem_cons_self _ _, h2⟩
        · exact Or.inr ⟨o, List.mem_cons_of_mem _ ho, hc⟩

/-- C15, as stated, fails: `umock_c_add_expected_call(NULL)` with a successful growth stores
the NULL handle in slot 0 of the expected registry. -/
theorem registry_invariant_counterexample :
    (∃ s, run 64 scenario_calls initial_state [Op.add_expected_call NULL_HANDLE true] =
        some s ∧
      s.expected = [NULL_HANDLE] ∧ s.expected_call_count = 1 ∧
      read_handle s.expected_calls 0 = some NULL_HANDLE) ∧
    ¬ (∀ (ops : List Op) (s : State),
        (∀ op ∈ ops, (∃ c ok, op = Op.add_expected_call c ok) ∨
          (∃ c ok, op = Op.add_actual_call c ok) ∨ op = Op.reset_all_calls) →
        run 64 scenario_calls initial_state ops = some s →
        (∀ h ∈ s.expected, h ≠ NULL_HANDLE) ∧ (∀ h ∈ s.actual, h ≠ NULL_HANDLE) ∧
        s.expected.length = s.expected_call_count ∧
        s.actual.length = s.actual_call_count) := by
  refine ⟨⟨_, rfl, by decide, by decide, by decide⟩, ?_⟩
  intro h
  have h1 := h [Op.add_expected_call NULL_HANDLE true] _
    (fun op hop => Or.inl ⟨NULL_HANDLE, true, List.mem_singleton.mp hop⟩) rfl
  exact h1.1 NULL_HANDLE (by decide) rfl

/-- C15, amended: from the initial state, after every sequence of operations whose handle
arguments are not NULL (with any allocation outcomes), the run returns, no slot of the
expected or of the actual registry holds a NULL handle, and each count is the number of
handles of its registry, all of them inside the block. -/
theorem registry_invariant_non_null (w : Nat) (C : Collaborators) (ops : List Op)
    (hnn : ∀ op ∈ ops, Op.call op ≠ some NULL_HANDLE) :
    ∃ s, run w C initial_state ops = some s ∧
      (∀ h ∈ s.expected, h ≠ NULL_HANDLE) ∧ (∀ h ∈ s.actual, h ≠ NULL_HANDLE) ∧
      (∀ i, i < s.expected_call_count →
        ∃ h, read_handle s.expected_calls i = some h ∧ h ≠ NULL_HANDLE) ∧
      (∀ i, i < s.actual_call_count →
        ∃ h, read_handle s.actual_calls i = some h ∧ h ≠ NULL_HANDLE) ∧
      s.expected.length = s.expected_call_count ∧
      s.actual.length = s.actual_call_count := by
  obtain ⟨s, hrun⟩ := run_total w C ops initial_state initial_state_valid
  have hv := run_valid w C ops initial_state s initial_state_valid hrun
  obtain ⟨hE, hA⟩ := run_members w C ops initial_state s initial_state_valid hrun
  have hle := expected_length s hv
  have hla := actual_length s hv
  have hnE : ∀ h ∈ s.expected, h ≠ NULL_HANDLE := by
    intro h hh hnull
    rcases hE h hh with h1 | ⟨op, hop, hc⟩
    · simp [State.expected, initial_state] at h1
    · exact hnn op hop (by rw [hc, hnull])
  have hnA : ∀ h ∈ s.actual, h ≠ NULL_HANDLE := by
    intro h hh hnull
    rcases hA h hh with h1 | ⟨op, hop, hc⟩
    · simp [State.actual, initial_state] at h1
    · exact hnn op hop (by rw [hc, hnull])
  refine ⟨s, hrun, hnE, hnA, ?_, ?_, hle, hla⟩
  · intro i hi
    rw [read_handle_view _ _ _ hi]
    have hs : s.expected[i]? = some s.expected[i] := List.getElem?_eq_getElem (by omega)
    exact ⟨_, hs, hnE _ (List.getElem?_mem hs)⟩
  · intro i hi
    rw [read_handle_view _ _ _ hi]
    have hs : s.actual[i]? = some s.actual[i] := List.getElem?_eq_getElem (by omega)
    exact ⟨_, hs, hnA _ (List.getElem?_mem hs)⟩

/-- Witness of C15, amended: the scenario of the spec, run with a failed growth. -/
theorem registry_invariant_non_null_witness :
    (∀ op ∈ register_ops [1, 2, 3] ++ observe_ops [(4, true), (5, false), (5, true)],
      Op.call op ≠ some NULL_HANDLE) ∧
    ∃ s, run 64 scenario_calls initial_state
        (register_ops [1, 2, 3] ++ observe_ops [(4, true), (5, false), (5, true)]) = some s ∧
      (∀ h ∈ s.expected, h ≠ NULL_HANDLE) ∧ (∀ h ∈ s.actual, h ≠ NULL_HANDLE) ∧
      (∀ i, i < s.expected_call_count →
        ∃ h, read_handle s.expected_calls i = some h ∧ h ≠ NULL_HANDLE) ∧
      (∀ i, i < s.actual_call_count →
        ∃ h, read_handle s.actual_calls i = some h ∧ h ≠ NULL_HANDLE) ∧
      s.expected.length = s.expected_call_count ∧
      s.actual.length = s.actual_call_count :=
  ⟨by decide,
    registry_invariant_non_null 64 scenario_calls
      (register_ops [1, 2, 3] ++ observe_ops [(4, true), (5, false), (5, true)])
      (by decide)⟩

/-! ## Who destroys which call -/

theorem count_eraseIdx_add (l : List UMOCKCALL_HANDLE) (j : Nat) (e a : UMOCKCALL_HANDLE)
    (h : l[j]? = some e) :
    List.count a l = List.count a (l.eraseIdx j) + List.count a [e] := by
  induction l generalizing j with
  | nil => simp at h
  | cons x xs ih =>
    cases j with
    | zero =>
      simp only [List.getElem?_cons_zero, Option.some.injEq] at h
      subst h
      simp only [List.eraseIdx_cons_zero, List.count_cons, List.count_nil]
      omega
    | succ j =>
      simp only [List.getElem?_cons_succ] at h
      have := ih j h
      simp only [List.eraseIdx_cons_succ, List.count_cons, List.count_nil] at this ⊢
      omega

theorem takes_match_path_false (w : Nat) (C : Collaborators) (s : State)
    (c : UMOCKCALL_HANDLE) (hv : s.Valid) (hm : first_match C s.expected c = none) :
    takes_match_path w C s c = false := by
  cases h : takes_match_path w C s c with
  | false => rfl
  | true =>
    obtain ⟨j, hj⟩ := takes_match_path_first_match w C s c hv h
    rw [hm] at hj
    exact absurd hj (by simp)

/-- The ledger and the state agree along a run of registrations and observations on
distinct calls: the destroy log is the list of the matched calls, the actual registry the
list of the appended calls, the expected registry holds the registered calls that were not
returned, and no call is in two lists. -/
theorem run_ledger_inv (w : Nat) (C : Collaborators) (ops : List Op) (s : State)
    (L : Ledger) (hv : s.Valid) (hD : s.destroyed = L.matched) (hA : s.actual = L.appended)
    (hE : ∀ a, List.count a s.expected + List.count a L.returned =
      List.count a L.registered)
    (hN : ∀ a, List.count a L.registered + List.count a L.matched +
      List.count a L.appended + List.count a (ops.filterMap Op.call) ≤ 1)
    (hk : ∀ op ∈ ops, Op.call op ≠ none)
    (hw : s.expected_call_count + ops.length < 2 ^ w) :
    ∃ s1, run w C s ops = some s1 ∧ s1.Valid ∧
      s1.destroyed = (run_ledger w C s L ops).matched ∧
      s1.actual = (run_ledger w C s L ops).appended ∧
      (∀ a, List.count a s1.expected + List.count a (run_ledger w C s L ops).returned =
        List.count a (run_ledger w C s L ops).registered) ∧
      (∀ a, List.count a (run_ledger w C s L ops).registered +
        List.count a (run_ledger w C s L ops).matched +
        List.count a (run_ledger w C s L ops).appended ≤ 1) := by
  induction ops generalizing s L with
  | nil =>
    refine ⟨s, rfl, hv, hD, hA, hE, ?_⟩
    intro a
    have := hN a
    simp only [List.filterMap_nil, List.count_nil, run_ledger] at this ⊢
    omega
  | cons op ops ih =>
    have hk2 : ∀ o ∈ ops, Op.call o ≠ none := fun o ho => hk o (List.mem_cons_of_mem _ ho)
    simp only [List.length_cons] at hw
    cases op with
    | add_expected_call c ok =>
      have hN1 : ∀ a, List.count a L.registered + List.count a L.matched +
          List.count a L.appended + (List.count a (ops.filterMap Op.call) +
            List.count a [c]) ≤ 1 := by
        intro a
        have := hN a
        simp only [List.filterMap_cons, Op.call, List.count_cons, List.count_nil] at this ⊢
        omega
      cases ok with
      | false =>
        simp only [run, run_ledger, step, ledger_step, umock_c_add_expected_call,
          Bool.false_eq_true, if_false]
        exact ih s L hv hD hA hE (fun a => by have := hN1 a; omega) hk2 (by omega)
      | true =>
        simp only [run, run_ledger, step, ledger_step, if_true]
        refine ih _ _ (add_expected_call_valid s c true hv) hD hA ?_ ?_ hk2 ?_
        · intro a
          rw [add_expected_call_expected s c hv.1]
          have := hE a
          simp only [List.count_append]
          omega
        · intro a
          have := hN1 a
          simp only [List.count_append]
          omega
        · show s.expected_call_count + 1 + ops.length < 2 ^ w
          omega
    | add_actual_call c ok =>
      have hN1 : ∀ a, List.count a L.registered + List.count a L.matched +
          List.count a L.appended + (List.count a (ops.filterMap Op.call) +
            List.count a [c]) ≤ 1 := by
        intro a
        have := hN a
        simp only [List.filterMap_cons, Op.call, List.count_cons, List.count_nil] at this ⊢
        omega
      cases hm : first_match C s.expected c with
      | none =>
        have hno := (first_match_eq_none_iff C s.expected c).mp hm
        have hcall := add_actual_call_no_match w C s c ok hv.1
          (fun k e he => hno e (List.getElem?_mem he))
        have htm := takes_match_path_false w C s c hv hm
        cases ok with
        | false =>
          simp only [Bool.false_eq_true, if_false] at hcall
          simp only [run, run_ledger, step, ledger_step, hcall, htm, Option.map_some',
            Bool.false_eq_true, if_false]
          exact ih s L hv hD hA hE (fun a => by have := hN1 a; omega) hk2 (by omega)
        | true =>
          simp only [if_true] at hcall
          simp only [run, run_ledger, step, ledger_step, hcall, htm, Option.map_some',
            Bool.false_eq_true, if_false, if_true]
          refine ih _ _ (valid_append_actual s c hv) hD ?_ hE ?_ hk2
            (by show s.expected_call_count + ops.length < 2 ^ w; omega)
          · show State.actual _ = L.appended ++ [c]
            rw [← hA]
            simp only [State.actual, Option.getD_some]
            exact view_realloc_set s.actual_calls s.actual_call_count c hv.2
          · intro a
            have := hN1 a
            simp only [List.count_append]
            omega
      | some j =>
        obtain ⟨e, hj, heq, hno⟩ := (first_match_eq_some_iff C s.expected c j).mp hm
        obtain ⟨s1, hcall, hE1, hc1, hA1, hAc1, hD1, _, _, hv1⟩ :=
          add_actual_call_match_state w C s c j e hv (by omega) hj heq hno
        have htm : takes_match_path w C s c = true :=
          (takes_match_path_iff w C s c hv (by omega)).mpr ⟨e, List.getElem?_mem hj, heq⟩
        simp only [run, run_ledger, step, ledger_step, hcall ok, htm, Option.map_some',
          if_true]
        refine ih s1 _ hv1 ?_ ?_ ?_ ?_ hk2 (by omega)
        · rw [hD1, hD]
        · rw [actual_eq_of_fields s s1 hA1 hAc1, hA]
        · intro a
          have h1 := hE a
          have h2 := count_eraseIdx_add s.expected j e a hj
          rw [hE1]
          simp only [List.count_append]
          omega
        · intro a
          have := hN1 a
          simp only [List.count_append]
          omega
    | reset_all_calls => exact absurd rfl (hk _ (List.mem_cons_self _ _))
    | get_expected_calls alloc => exact absurd rfl (hk _ (List.mem_cons_self _ _))
    | get_actual_calls alloc => exact absurd rfl (hk _ (List.mem_cons_self _ _))
    | deinit => exact absurd rfl (hk _ (List.mem_cons_self _ _))

/-- C14, as stated, fails: register the expectation 1, observe the equal call 4, reset.
The observed call 4 is destroyed by the Matcher; the registered expectation 1 is removed
from the registry and returned to the caller, and neither the Matcher nor the reset
destroys it: it is destroyed zero times. -/
theorem destroyed_once_counterexample :
    (∃ s s1, run 64 scenario_calls initial_state
        [Op.add_expected_call 1 true, Op.add_actual_call 4 true] = some s ∧
      umock_c_add_actual_call 64 scenario_calls
        (umock_c_add_expected_call initial_state 1 true).2 4 true = some (1, s) ∧
      umock_c_reset_all_calls s = some (0, s1) ∧
      (run_ledger 64 scenario_calls initial_state Ledger.initial
        [Op.add_expected_call 1 true, Op.add_actual_call 4 true]).registered = [1] ∧
      (run_ledger 64 scenario_calls initial_state Ledger.initial
        [Op.add_expected_call 1 true, Op.add_actual_call 4 true]).returned = [1] ∧
      (run_ledger 64 scenario_calls initial_state Ledger.initial
        [Op.add_expected_call 1 true, Op.add_actual_call 4 true]).matched = [4] ∧
      s1.destroyed = [4] ∧ s1.destroyed.count 1 = 0) ∧
    ¬ (∀ (ops : List Op) (s s1 : State),
        (∀ op ∈ ops, Op.call op ≠ none) → (ops.filterMap Op.call).Nodup →
        run 64 scenario_calls initial_state ops = some s →
        umock_c_reset_all_calls s = some (0, s1) →
        ∀ h ∈ (run_ledger 64 scenario_calls initial_state Ledger.initial ops).registered ++
            (run_ledger 64 scenario_calls initial_state Ledger.initial ops).matched ++
            (run_ledger 64 scenario_calls initial_state Ledger.initial ops).appended,
          s1.destroyed.count h = 1) := by
  refine ⟨⟨_, _, rfl, rfl, rfl, by decide, by decide, by decide, by decide, by decide⟩, ?_⟩
  intro h
  have h1 := h [Op.add_expected_call 1 true, Op.add_actual_call 4 true] _ _
    (by decide) (by decide) rfl rfl 1 (by decide)
  exact absurd h1 (by decide)

/-- C14, amended: from the initial state, after every sequence of
`umock_c_add_expected_call` and `umock_c_add_actual_call` on distinct calls followed by
`umock_c_reset_all_calls`: every observed call that matched has been destroyed exactly
once (by the Matcher), every observed call appended to the actual registry and every
registered expectation that no match returned has been destroyed exactly once (by the
reset); an expectation that a match removed and returned to its caller is a registered
one and has not been destroyed by the core. The destroy log is the matched calls, then the
outstanding expectations, then the actual calls. -/
theorem destroyed_once (w : Nat) (C : Collaborators) (ops : List Op)
    (hk : ∀ op ∈ ops, Op.call op ≠ none) (hd : (ops.filterMap Op.call).Nodup)
    (hw : ops.length < 2 ^ w) :
    ∃ s s1 L, run w C initial_state ops = some s ∧
      umock_c_reset_all_calls s = some (0, s1) ∧
      L = run_ledger w C initial_state Ledger.initial ops ∧
      s1.destroyed = L.matched ++ s.expected ++ s.actual ∧ s1.destroyed.Nodup ∧
      (∀ h ∈ L.matched, s1.destroyed.count h = 1) ∧
      (∀ h ∈ L.appended, s1.destroyed.count h = 1) ∧
      (∀ h ∈ L.registered, h ∉ L.returned → s1.destroyed.count h = 1) ∧
      (∀ h ∈ L.returned, h ∈ L.registered ∧ s1.destroyed.count h = 0) := by
  obtain ⟨s, hrun, hv, hD, hA, hE, hN⟩ :=
    run_ledger_inv w C ops initial_state Ledger.initial initial_state_valid rfl rfl
      (fun a => by simp [State.expected, initial_state, Ledger.initial])
      (fun a => by
        have := List.nodup_iff_count_le_one.mp hd a
        simpa [Ledger.initial] using this)
      hk (by simpa [initial_state] using hw)
  have hreset := reset_all_calls_eq s hv
  refine ⟨s, _, _, hrun, hreset, rfl, by rw [← hD], ?_, ?_, ?_, ?_, ?_⟩
  · show (s.destroyed ++ s.expected ++ s.actual).Nodup
    rw [List.nodup_iff_count_le_one]
    intro a
    have h2 := hE a
    have h3 := hN a
    rw [hD, hA]
    simp only [List.count_append]
    omega
  · intro h hh
    have h1 := List.one_le_count_iff.mpr hh
    have h2 := hE h
    have h3 := hN h
    show List.count h (s.destroyed ++ s.expected ++ s.actual) = 1
    rw [hD, hA]
    simp only [List.count_append]
    omega
  · intro h hh
    have h1 := List.one_le_count_iff.mpr hh
    have h2 := hE h
    have h3 := hN h
    show List.count h (s.destroyed ++ s.expected ++ s.actual) = 1
    rw [hD, hA]
    simp only [List.count_append]
    omega
  · intro h hh hnot
    have h1 := List.one_le_count_iff.mpr hh
    have h2 := hE h
    have h3 := hN h
    have h4 := List.count_eq_zero.mpr hnot
    show List.count h (s.destroyed ++ s.expected ++ s.actual) = 1
    rw [hD, hA]
    simp only [List.count_append]
    omega
  · intro h hh
    have h1 := List.one_le_count_iff.mpr hh
    have h2 := hE h
    have h3 := hN h
    refine ⟨List.one_le_count_iff.mp (by omega), ?_⟩
    show List.count h (s.destroyed ++ s.expected ++ s.actual) = 0
    rw [hD, hA]
    simp only [List.count_append]
    omega

/-- Witness of C14, amended: the scenario of the spec. The observed `foo(1)` (4) is
destroyed by the Matcher, `bar("x")`, the second `foo(1)` and `baz()` (2, 3, 5) by the
reset, and the first `foo(1)` (1), returned by the match, by neither. -/
theorem destroyed_once_witness :
    (∀ op ∈ register_ops [1, 2, 3] ++ observe_ops [(4, true), (5, true)],
      Op.call op ≠ none) ∧
    ((register_ops [1, 2, 3] ++ observe_ops [(4, true), (5, true)]).filterMap Op.call).Nodup ∧
    (register_ops [1, 2, 3] ++ observe_ops [(4, true), (5, true)]).length < 2 ^ 64 ∧
    ∃ s s1 L, run 64 scenario_calls initial_state
        (register_ops [1, 2, 3] ++ observe_ops [(4, true), (5, true)]) = some s ∧
      umock_c_reset_all_calls s = some (0, s1) ∧
      L = scenario_ledger ∧ s1.destroyed = [4, 2, 3, 5] ∧ s1.destroyed.Nodup ∧
      (∀ h ∈ L.matched, s1.destroyed.count h = 1) ∧
      (∀ h ∈ L.appended, s1.destroyed.count h = 1) ∧
      (∀ h ∈ L.registered, h ∉ L.returned → s1.destroyed.count h = 1) ∧
      (∀ h ∈ L.returned, h ∈ L.registered ∧ s1.destroyed.count h = 0) := by
  obtain ⟨s, s1, L, hrun, hreset, hL, hlog, hnd, h1, h2, h3, h4⟩ :=
    destroyed_once 64 scenario_calls
      (register_ops [1, 2, 3] ++ observe_ops [(4, true), (5, true)])
      (by decide) (by decide) (by decide)
  have hs : s = scenario_final_state := Option.some.inj (hrun.symm.trans (by decide))
  have hL2 : L = scenario_ledger := hL.trans (by decide)
  refine ⟨by decide, by decide, by decide, s, s1, L, hrun, hreset, hL2, ?_, hnd, h1, h2, h3,
    h4⟩
  rw [hlog, hL2, hs]
  decide

end UmockC
